import Mathlib

/-!
# Verification of the Pomodash store action/mutation layer

This file gives a shallow embedding of the Vuex store of the Pomodash
time-tracking application: the persistent database tables managed through
Dexie (`src/store/actions.ts`) and the in-memory store state updated by the
mutations (the unnamed mutations module), together with proofs about the
actions the specification describes.

Modelling conventions:
* JavaScript objects keyed by string ids (`state.tasks`, `state.tags`,
  `state.taskTagsMap`) are modelled as insertion-ordered association lists.
* Dexie tables are modelled as insertion-ordered lists of rows; `add`
  appends (and fails on a duplicate primary key, as Dexie does), `put`
  replaces the row with the same id or appends, `update` maps over the
  matching row, `delete` filters.
* `Date.now()` and the ids produced by `nanoid()` are passed to each action
  as explicit parameters (`now`, `logId`, ...).
* JavaScript truthiness on `number | null | undefined` and
  `boolean | undefined` fields is modelled by `truthyN` / `truthyB`
  (`null`/`undefined` become `none`; the number `0` and `false` are falsy).
* `handleDexieError` receives an *already started* Dexie promise; when
  `storageEnabled` is false it rejects without awaiting it, but the
  database operation itself has been initiated and still runs.  So a
  wrapped call under `storageEnabled = false` is modelled as: the database
  write takes effect, and the surrounding action stops at that point (its
  `catch` swallows the rejection, or the rejection propagates), skipping
  the store commit and all later statements.
-/

namespace Pomodash

/-- JS truthiness of a `number | null | undefined` field: `null`/`undefined`
and `0` are falsy. -/
def truthyN : Option Nat → Bool
  | none => false
  | some n => n != 0

/-- JS truthiness of a `boolean | undefined` field. -/
def truthyB : Option Bool → Bool
  | none => false
  | some b => b

/-- A task row (`Task` in `@/types`): `completed` is `undefined` or a
`Date.now()` timestamp, `archived` is `undefined` or a boolean. -/
structure Task where
  id : String
  name : String
  notes : String
  order : Nat
  created_at : Nat
  completed : Option Nat
  archived : Option Bool
  deriving Repr, DecidableEq

/-- A tag row (`Tag` in `@/types`). -/
structure Tag where
  id : String
  tagName : String
  color : String
  order : Nat
  deriving Repr, DecidableEq

/-- A task–tag association row (`TaskTagMap` in `@/types`). -/
structure TaskTagMap where
  id : String
  taskId : String
  tagId : String
  deriving Repr, DecidableEq

/-- An interval log row (`TaskLog` in `@/types`): `stopped` and `timeSpent`
are `null` while the timer is running. -/
structure TaskLog where
  id : String
  taskId : String
  started : Nat
  stopped : Option Nat
  timeSpent : Option Nat
  deriving Repr, DecidableEq

/-- The values stored in the `settings` key-value table, restricted to the
three setting keys the modelled actions use. -/
inductive SettingValue where
  | vStr (s : Option String)
  | vIds (l : List String)
  | vBool (b : Bool)
  deriving Repr, DecidableEq

/-- A row of the `settings` table (`SettingKv` in `@/types`). -/
structure SettingKv where
  key : String
  value : SettingValue
  deriving Repr, DecidableEq

/-- The Dexie database: the five tables used by the actions. -/
structure Db where
  tasks : List Task
  tags : List Tag
  taskTagMap : List TaskTagMap
  settings : List SettingKv
  logs : List TaskLog
  deriving Repr, DecidableEq

/-- The typed `state.settings` object, restricted to the keys the modelled
actions read or write. -/
structure Settings where
  selectedTaskID : Option String
  selectedTagIds : List String
  addSelectedTags : Bool
  deriving Repr, DecidableEq

/-- The object `state.tempState`, restricted to the fields the modelled actions use. -/
structure TempState where
  activeTaskID : Option String
  running : Bool
  deriving Repr, DecidableEq

/-- The in-memory Vuex store state (`PomoTrackState`), restricted to the
fields touched by the modelled actions and mutations. -/
structure StoreState where
  tasks : List Task
  tags : List Tag
  tagOrder : List String
  taskTagsMap : List (String × List String)
  settings : Settings
  selectedTaskLogs : List TaskLog
  tempState : TempState
  deriving Repr, DecidableEq

/-- A configuration: the database together with the store state. -/
abbrev Config := Db × StoreState

/-! ## Table and object helpers -/

/-- Model of `state.tasks[taskId]` (also `dexieDb.tasks.get`): first row with the id. -/
def findTask (ts : List Task) (taskId : String) : Option Task :=
  ts.find? (fun t => t.id = taskId)

/-- Model of `dexieDb.tasks.update(taskId, ...)` and the `updateTask` mutation: apply
the field update to the row with the given id. -/
def updateTaskById (ts : List Task) (taskId : String) (f : Task → Task) : List Task :=
  ts.map (fun t => if t.id = taskId then f t else t)

/-- Dexie `put` on the `logs` table: replace the row with the same primary
key (unique within a Dexie table), or append when no row has it. -/
def putLog : List TaskLog → TaskLog → List TaskLog
  | [], l => [l]
  | x :: xs, l => if x.id = l.id then l :: xs else x :: putLog xs l

/-- Dexie `add` on the `logs` table: append; a duplicate primary key makes
the operation fail, leaving the table unchanged. -/
def addLog (ls : List TaskLog) (l : TaskLog) : Option (List TaskLog) :=
  if ls.any (fun x => x.id = l.id) then none else some (ls ++ [l])

/-- Dexie `put` on the `settings` table (keyed by `key`, unique). -/
def settingsPut : List SettingKv → SettingKv → List SettingKv
  | [], kv => [kv]
  | x :: xs, kv => if x.key = kv.key then kv :: xs else x :: settingsPut xs kv

/-- Dexie `put` on the `tasks` table (primary key `id`, unique). -/
def putTask : List Task → Task → List Task
  | [], t => [t]
  | x :: xs, t => if x.id = t.id then t :: xs else x :: putTask xs t

/-- Dexie `bulkPut` on the `tasks` table. -/
def bulkPutTasks (ts : List Task) (new : List Task) : List Task :=
  new.foldl putTask ts

/-- Lookup in an association-list object such as `state.taskTagsMap`. -/
def mapLookup : List (String × List String) → String → Option (List String)
  | [], _ => none
  | p :: ps, k => if p.1 = k then some p.2 else mapLookup ps k

/-- Assignment `obj[k] = v` on an association-list object: replace the entry when the
key is present, insert it at the end otherwise. -/
def mapSet : List (String × List String) → String → List String →
    List (String × List String)
  | [], k, v => [(k, v)]
  | p :: ps, k, v => if p.1 = k then (k, v) :: ps else p :: mapSet ps k v

/-- Model of `obj[k].push(x)`: append to the entry's list.  When the key is absent
JavaScript would throw (`undefined.push`); every call site in the source
guarantees the entry exists, and the model leaves the object unchanged in
that unreachable case. -/
def mapPush (m : List (String × List String)) (k : String) (x : String) :
    List (String × List String) :=
  m.map (fun p => if p.1 = k then (p.1, p.2 ++ [x]) else p)

/-- Model of `delete obj[k]` on an association-list object. -/
def mapErase (m : List (String × List String)) (k : String) :
    List (String × List String) :=
  m.filter (fun p => p.1 != k)

/-- Insertion of a task into a list sorted by ascending `order` (used to
model Dexie `orderBy('order')`, a stable sort of the table). -/
def insertByOrder (t : Task) : List Task → List Task
  | [] => [t]
  | x :: xs => if t.order < x.order then t :: x :: xs else x :: insertByOrder t xs

/-- Model of `dexieDb.tasks.orderBy('order').toArray()`. -/
def sortTasksByOrder (ts : List Task) : List Task :=
  ts.foldr insertByOrder []

/-- Insertion of a tag into a list sorted by ascending `order`. -/
def insertTagByOrder (t : Tag) : List Tag → List Tag
  | [] => [t]
  | x :: xs => if t.order < x.order then t :: x :: xs else x :: insertTagByOrder t xs

/-- Model of `dexieDb.tags.orderBy('order').toArray()`. -/
def sortTagsByOrder (ts : List Tag) : List Tag :=
  ts.foldr insertTagByOrder []

/-- Lookup of a row of the `settings` table by key. -/
def settingsLookup (rows : List SettingKv) (k : String) : Option SettingValue :=
  (rows.find? (fun r => r.key = k)).map (fun r => r.value)

/-- Assignment `state.tags[tag.id] = tag`: replace-or-append on the tags object. -/
def putTag : List Tag → Tag → List Tag
  | [], t => [t]
  | x :: xs, t => if x.id = t.id then t :: xs else x :: putTag xs t

/-- Model of `obj[k] = obj[k].filter(...)` removing one tag id from the entry at `k`
(a step of the `deleteTag` mutation's loop). -/
def mapFilterEntry (m : List (String × List String)) (k : String) (tagId : String) :
    List (String × List String) :=
  m.map (fun p => if p.1 = k then (p.1, p.2.filter (fun x => x != tagId)) else p)

/-! ## Mutations (the store mutation module) -/

/-- Modelled from the spec: the defaults of `initialState.settings`
(`initialState.ts` is not among the sources).  The spec describes settings
as "a small key-value table of user preferences (selected task, tag
filters, UI toggles)"; initially no task is selected, no tag filters are
set, and toggles are off. -/
def initialSettings : Settings :=
  { selectedTaskID := none, selectedTagIds := [], addSelectedTags := false }

/-- The settings object the `loadInitialData` mutation builds: for each key
of `initialState.settings`, the persisted row's value when one exists,
otherwise the default. -/
def buildSettings (rows : List SettingKv) : Settings :=
  { selectedTaskID :=
      match settingsLookup rows "selectedTaskID" with
      | some (SettingValue.vStr v) => v
      | _ => initialSettings.selectedTaskID
    selectedTagIds :=
      match settingsLookup rows "selectedTagIds" with
      | some (SettingValue.vIds v) => v
      | _ => initialSettings.selectedTagIds
    addSelectedTags :=
      match settingsLookup rows "addSelectedTags" with
      | some (SettingValue.vBool v) => v
      | _ => initialSettings.addSelectedTags }

/-- Mutation `loadInitialData`: rebuild `tasks`, `tags`, `tagOrder`,
`taskTagsMap` (one empty entry per task, then one push per association
row) and `settings`; set `selectedTaskLogs`. -/
def mLoadInitialData (s : StoreState) (tasks : List Task) (tags : List Tag)
    (taskTagMaps : List TaskTagMap) (settings : List SettingKv)
    (selectedTaskLogs : List TaskLog) : StoreState :=
  let taskTagsMap0 := tasks.map (fun t => (t.id, ([] : List String)))
  let taskTagsMap :=
    taskTagMaps.foldl (fun m row => mapPush m row.taskId row.tagId) taskTagsMap0
  { s with
    tasks := tasks
    tags := tags
    tagOrder := tags.map (fun t => t.id)
    taskTagsMap := taskTagsMap
    settings := buildSettings settings
    selectedTaskLogs := selectedTaskLogs }

/-- Mutation `addTask`: insert the task, give it an empty `taskTagsMap`
entry, and push the tag id of each created association row. -/
def mAddTask (s : StoreState) (task : Task) (taskTagMaps : List TaskTagMap) : StoreState :=
  { s with
    tasks := putTask s.tasks task
    taskTagsMap :=
      taskTagMaps.foldl (fun m row => mapPush m row.taskId row.tagId)
        (mapSet s.taskTagsMap task.id []) }

/-- Mutation `updateTask`: `state.tasks[taskId] = { ...old, ...updates }`.
Every dispatching action first checks that the task exists, so the
missing-key case (where JS would create a partial object) is not modelled. -/
def mUpdateTask (s : StoreState) (taskId : String) (f : Task → Task) : StoreState :=
  { s with tasks := updateTaskById s.tasks taskId f }

/-- Mutation `setTasks`: rebuild `state.tasks` from the list. -/
def mSetTasks (s : StoreState) (tasks : List Task) : StoreState :=
  { s with tasks := tasks }

/-- Mutation `deleteTasks`: drop the tasks and their `taskTagsMap` entries. -/
def mDeleteTasks (s : StoreState) (taskIds : List String) : StoreState :=
  { s with
    tasks := s.tasks.filter (fun t => !taskIds.contains t.id)
    taskTagsMap := s.taskTagsMap.filter (fun p => !taskIds.contains p.1) }

/-- Mutation `startTask`: when the log's task exists, mark it active and
running and push the log onto `selectedTaskLogs`. -/
def mStartTask (s : StoreState) (log : TaskLog) : StoreState :=
  match findTask s.tasks log.taskId with
  | none => s
  | some task =>
    { s with
      tempState := { s.tempState with activeTaskID := some task.id, running := true }
      selectedTaskLogs := s.selectedTaskLogs ++ [log] }

/-- Mutation `updateLog`: only for the selected task; replace the log in
`selectedTaskLogs` (updating the running flags) or push it. -/
def mUpdateLog (s : StoreState) (taskId : String) (log : TaskLog) : StoreState :=
  if s.settings.selectedTaskID ≠ some taskId then s
  else
    match s.selectedTaskLogs.findIdx? (fun l => l.id = log.id) with
    | some i =>
      { s with
        selectedTaskLogs := s.selectedTaskLogs.set i log
        tempState :=
          if log.stopped = none then { s.tempState with running := true }
          else { activeTaskID := none, running := false } }
    | none => { s with selectedTaskLogs := s.selectedTaskLogs ++ [log] }

/-- Mutation `deleteInterval`: only for the selected task; splice the log
out of `selectedTaskLogs`. -/
def mDeleteInterval (s : StoreState) (taskId : String) (logId : String) : StoreState :=
  if s.settings.selectedTaskID ≠ some taskId then s
  else
    match s.selectedTaskLogs.findIdx? (fun l => l.id = logId) with
    | some i => { s with selectedTaskLogs := s.selectedTaskLogs.eraseIdx i }
    | none => s

/-- Mutation `setSelectedTaskLogs`. -/
def mSetSelectedTaskLogs (s : StoreState) (logs : List TaskLog) : StoreState :=
  { s with selectedTaskLogs := logs }

/-- Mutation `addTaskTag`: a new tag is inserted into `tags` and appended to
`tagOrder`; the tag id is pushed onto the task's `taskTagsMap` entry. -/
def mAddTaskTag (s : StoreState) (taskId : String) (tag : Tag) (isNewTag : Bool) : StoreState :=
  let s1 :=
    if isNewTag then
      { s with tags := putTag s.tags tag, tagOrder := s.tagOrder ++ [tag.id] }
    else s
  { s1 with taskTagsMap := mapPush s1.taskTagsMap taskId tag.id }

/-- Mutation `deleteTaskTag`: `state.taskTagsMap[taskId] = newTagIds`. -/
def mDeleteTaskTag (s : StoreState) (taskId : String) (newTagIds : List String) : StoreState :=
  { s with taskTagsMap := mapSet s.taskTagsMap taskId newTagIds }

/-- Mutation `deleteTag`: filter the tag id out of the `taskTagsMap` entry
of every task in `state.tasks`, out of the tag filters, and drop the tag
itself and its `tagOrder` entry. -/
def mDeleteTag (s : StoreState) (tagId : String) : StoreState :=
  { s with
    taskTagsMap := s.tasks.foldl (fun m t => mapFilterEntry m t.id tagId) s.taskTagsMap
    settings :=
      { s.settings with selectedTagIds := s.settings.selectedTagIds.filter (fun x => x != tagId) }
    tags := s.tags.filter (fun t => t.id != tagId)
    tagOrder := s.tagOrder.filter (fun x => x != tagId) }

/-- Writing one key of the typed settings object (`state.settings[key] = value`). -/
def applySetting (st : Settings) (key : String) (v : SettingValue) : Settings :=
  match key, v with
  | "selectedTaskID", SettingValue.vStr x => { st with selectedTaskID := x }
  | "selectedTagIds", SettingValue.vIds x => { st with selectedTagIds := x }
  | "addSelectedTags", SettingValue.vBool x => { st with addSelectedTags := x }
  | _, _ => st

/-- Mutation `updateSetting`. -/
def mUpdateSetting (s : StoreState) (key : String) (v : SettingValue) : StoreState :=
  { s with settings := applySetting s.settings key v }

/-! ## Actions (`src/store/actions.ts`)

Each action takes `storageEnabled` (`se`), the current time (`now`) and any
generated ids as explicit parameters.  Database writes passed to
`handleDexieError` still execute when `se = false` (the Dexie call is made
before the flag is checked), but the returned rejection makes the action
skip its store commit and everything after the wrapped call. -/

/-- The reconciliation `loadInitialData` applies to one fetched log:
`if (!log.stopped && log.timeSpent) log.stopped = log.started + log.timeSpent`. -/
def reconcileLog (l : TaskLog) : TaskLog :=
  if !truthyN l.stopped && truthyN l.timeSpent then
    { l with stopped := some (l.started + l.timeSpent.getD 0) }
  else l

/-- Whether `loadInitialData`'s loop would write this log back. -/
def needsReconcile (l : TaskLog) : Bool :=
  !truthyN l.stopped && truthyN l.timeSpent

/-- The database contents of `loadInitialData`'s loop when storage is
disabled: the first reconcilable log is still written (its `logs.put` was
started before `handleDexieError` rejected), and the rejection then aborts
the loop. -/
def reconcileFirst : List TaskLog → List TaskLog
  | [] => []
  | l :: ls =>
    if needsReconcile l then reconcileLog l :: ls else l :: reconcileFirst ls

/-- Action `updateSetting`: put the row, then commit. -/
def updateSettingA (se : Bool) (c : Config) (key : String) (value : SettingValue) : Config :=
  let (db, s) := c
  let db1 := { db with settings := settingsPut db.settings ⟨key, value⟩ }
  if se then (db1, mUpdateSetting s key value) else (db1, s)

/-- Action `selectTask`: persist `selectedTaskID` via `updateSetting`, then
set `selectedTaskLogs` from the database.  When storage is disabled the
rejection from `updateSetting` propagates and the second half is skipped. -/
def selectTaskA (se : Bool) (c : Config) (taskId : Option String) : Config :=
  let c1 := updateSettingA se c "selectedTaskID" (SettingValue.vStr taskId)
  if !se then c1
  else
    match taskId with
    | some tid => (c1.1, { c1.2 with selectedTaskLogs := c1.1.logs.filter (fun l => l.taskId = tid) })
    | none => (c1.1, { c1.2 with selectedTaskLogs := [] })

/-- Action `loadInitialData`: fetch the tables (tasks and tags ordered by
`order`), write back every fetched log with `!log.stopped && log.timeSpent`
setting `stopped := started + timeSpent`, fetch the selected task's logs,
and commit the `loadInitialData` mutation.  When storage is disabled the
first such write-back still executes but its rejection aborts the action
before the commit. -/
def loadInitialDataA (se : Bool) (c : Config) : Config :=
  let (db, s) := c
  if db.logs.any needsReconcile && !se then
    ({ db with logs := reconcileFirst db.logs }, s)
  else
    let logs2 := db.logs.map reconcileLog
    let db2 := { db with logs := logs2 }
    let selectedTaskLogs :=
      match settingsLookup db.settings "selectedTaskID" with
      | some (SettingValue.vStr (some tid)) =>
        if tid ≠ "" then logs2.filter (fun l => l.taskId = tid) else []
      | _ => []
    (db2,
      mLoadInitialData s (sortTasksByOrder db.tasks) (sortTagsByOrder db.tags)
        db.taskTagMap db.settings selectedTaskLogs)

/-- Action `addTask`: trim the name; compute `order` as one more than the
maximum over the store's tasks; add the task; when `addSelectedTags` is on
and tag filters are selected, bulk-add one association row per selected
tag; commit; dispatch `selectTask`. -/
def addTaskA (se : Bool) (now : Nat) (newTaskId : String) (mapIdGen : Nat → String)
    (c : Config) (name : String) : Config :=
  let (db, s) := c
  let taskName := name.trim
  if taskName = "" then c
  else
    let order := (s.tasks.foldl (fun mx t => if t.order > mx then t.order else mx) 0) + 1
    let newTask : Task :=
      { id := newTaskId, name := taskName, notes := "", order := order,
        created_at := now, completed := none, archived := none }
    if db.tasks.any (fun t => t.id = newTask.id) then c
    else
      let db1 := { db with tasks := db.tasks ++ [newTask] }
      if !se then (db1, s)
      else
        let taskTagMaps :=
          if s.settings.addSelectedTags && !s.settings.selectedTagIds.isEmpty then
            s.settings.selectedTagIds.mapIdx
              (fun i tagId => ({ id := mapIdGen i, taskId := newTask.id, tagId := tagId } : TaskTagMap))
          else []
        let db2 := { db1 with taskTagMap := db1.taskTagMap ++ taskTagMaps }
        let s2 := mAddTask s newTask taskTagMaps
        selectTaskA se (db2, s2) (some newTask.id)

/-- Action `updateTaskName`: existence check, guarded update, commit. -/
def updateTaskNameA (se : Bool) (c : Config) (taskId : String) (name : String) : Config :=
  let (db, s) := c
  match findTask s.tasks taskId with
  | none => c
  | some _ =>
    let db1 := { db with tasks := updateTaskById db.tasks taskId (fun t => { t with name := name }) }
    if se then (db1, mUpdateTask s taskId (fun t => { t with name := name })) else (db1, s)

/-- Action `updateTaskNotes`: existence check, guarded update, commit. -/
def updateTaskNotesA (se : Bool) (c : Config) (taskId : String) (notes : String) : Config :=
  let (db, s) := c
  match findTask s.tasks taskId with
  | none => c
  | some _ =>
    let db1 := { db with tasks := updateTaskById db.tasks taskId (fun t => { t with notes := notes }) }
    if se then (db1, mUpdateTask s taskId (fun t => { t with notes := notes })) else (db1, s)

/-- Numbering pass of `reorderIncompleteTasks`: `task.order = i` for each
position of the concatenated list. -/
def setOrdersFrom : Nat → List Task → List Task
  | _, [] => []
  | i, t :: ts => { t with order := i } :: setOrdersFrom (i + 1) ts

/-- Model of `for (const [i, task] of fullTaskOrder.entries()) task.order = i`. -/
def setOrders (ts : List Task) : List Task :=
  setOrdersFrom 0 ts

/-- The merge loop of `reorderIncompleteTasks`'s unequal-length branch:
positions of incomplete tasks whose id is in `marked` are replaced by the
successive elements of `repl`.  (Exhaustion of `repl` cannot happen when
the store's task ids are distinct; the model then keeps the original.) -/
def replaceMarked (marked : List String) : List Task → List Task → List Task
  | [], _ => []
  | t :: rest, repl =>
    if marked.contains t.id then
      match repl with
      | r :: rs => r :: replaceMarked marked rest rs
      | [] => t :: replaceMarked marked rest []
    else t :: replaceMarked marked rest repl

/-- Action `reorderIncompleteTasks`: when the given list has the same length
as the store's incomplete tasks, renumber `newIncompleteTaskOrder`
followed by the completed tasks and bulk-put them; otherwise splice the
given tasks over the matching incomplete positions first. -/
def reorderIncompleteTasksA (se : Bool) (c : Config) (newIncompleteTaskOrder : List Task) : Config :=
  let (db, s) := c
  let incompleteTasks := s.tasks.filter (fun t => !truthyN t.completed)
  let completedTasks := s.tasks.filter (fun t => truthyN t.completed)
  let origLength := incompleteTasks.length
  if newIncompleteTaskOrder.length = origLength then
    let fullTaskOrder := setOrders (newIncompleteTaskOrder ++ completedTasks)
    let db1 := { db with tasks := bulkPutTasks db.tasks fullTaskOrder }
    if se then (db1, mSetTasks s fullTaskOrder) else (db1, s)
  else
    let marked := newIncompleteTaskOrder.map (fun t => t.id)
    let merged := replaceMarked marked incompleteTasks newIncompleteTaskOrder
    if merged.length = origLength then
      let fullTaskOrder := setOrders (merged ++ completedTasks)
      let db1 := { db with tasks := bulkPutTasks db.tasks fullTaskOrder }
      if se then (db1, mSetTasks s fullTaskOrder) else (db1, s)
    else c

/-- Action `stopTask`: find the first log with `stopped === null`, set its
`stopped` and `timeSpent`, put it back, commit `updateLog`. -/
def stopTaskA (se : Bool) (now : Nat) (c : Config) : Config :=
  let (db, s) := c
  match db.logs.find? (fun l => l.stopped = none) with
  | none => c
  | some runningLog =>
    let stoppedLog :=
      { runningLog with stopped := some now, timeSpent := some (now - runningLog.started) }
    let db1 := { db with logs := putLog db.logs stoppedLog }
    if se then (db1, mUpdateLog s runningLog.taskId stoppedLog) else (db1, s)

/-- Action `startTask`: dispatch `stopTask` first, then, when the task
exists, add a fresh running log and commit `startTask`. -/
def startTaskA (se : Bool) (now : Nat) (logId : String) (c : Config) (taskId : String) : Config :=
  let c1 := stopTaskA se now c
  match findTask c1.2.tasks taskId with
  | none => c1
  | some _ =>
    let log : TaskLog :=
      { id := logId, taskId := taskId, started := now, stopped := none, timeSpent := none }
    match addLog c1.1.logs log with
    | none => c1
    | some logs2 =>
      let db2 := { c1.1 with logs := logs2 }
      if se then (db2, mStartTask c1.2 log) else (db2, c1.2)

/-- Action `updateTaskTimer`: when the task exists and has a running log,
set its `timeSpent` to the elapsed time and put it back. -/
def updateTaskTimerA (se : Bool) (now : Nat) (c : Config) (taskId : String) : Config :=
  let (db, s) := c
  match findTask s.tasks taskId with
  | none => c
  | some _ =>
    match db.logs.find? (fun l => l.taskId = taskId && l.stopped = none) with
    | none => c
    | some runningLog =>
      let updated := { runningLog with timeSpent := some (now - runningLog.started) }
      let db1 := { db with logs := putLog db.logs updated }
      if se then (db1, mUpdateLog s taskId updated) else (db1, s)

/-- Action `completeTask`: when the task exists, stop the timer if this task
is active and running and it is being completed, then write
`completed := Date.now()` (or clear it when toggling back).  The
`tasks.update` and the commit are *not* routed through `handleDexieError`. -/
def completeTaskA (se : Bool) (now : Nat) (c : Config) (taskId : String) : Config :=
  match findTask c.2.tasks taskId with
  | none => c
  | some task =>
    let c1 :=
      if !truthyN task.completed
          && c.2.tempState.activeTaskID = some task.id && c.2.tempState.running then
        stopTaskA se now c
      else c
    let completedValue : Option Nat := if truthyN task.completed then none else some now
    let db2 :=
      { c1.1 with
        tasks := updateTaskById c1.1.tasks taskId (fun t => { t with completed := completedValue }) }
    (db2, mUpdateTask c1.2 taskId (fun t => { t with completed := completedValue }))

/-- Action `archiveTask`: when the task exists, write
`archived := !task.archived` (a boolean toggle) and commit.  Neither the
`tasks.update` nor the commit is routed through `handleDexieError`. -/
def archiveTaskA (c : Config) (taskId : String) : Config :=
  let (db, s) := c
  match findTask s.tasks taskId with
  | none => c
  | some task =>
    let newArchived : Option Bool := some (!truthyB task.archived)
    let db1 :=
      { db with tasks := updateTaskById db.tasks taskId (fun t => { t with archived := newArchived }) }
    (db1, mUpdateTask s taskId (fun t => { t with archived := newArchived }))

/-- The payload the `archiveTask` dispatchers build.
`NavbarArchiveDropdown.unarchiveTask` passes `{ taskId, archived: false }`. -/
structure ArchiveTaskPayload where
  taskId : String
  archived : Option Bool
  deriving Repr, DecidableEq

/-- Dispatching `archiveTask` with a payload: the action destructures only
`taskId` (`{ taskId }`), so any `archived` value the caller supplies is
ignored. -/
def dispatchArchiveTask (c : Config) (payload : ArchiveTaskPayload) : Config :=
  archiveTaskA c payload.taskId

/-- Action `addInterval`: when the task exists, add a log with the given
`started`, `timeSpent` and `stopped` and commit `updateLog`.  The
`logs.add` is *not* routed through `handleDexieError`. -/
def addIntervalA (logId : String) (c : Config)
    (taskId : String) (started timeSpent stopped : Nat) : Config :=
  let (db, s) := c
  match findTask s.tasks taskId with
  | none => c
  | some _ =>
    let log : TaskLog :=
      { id := logId, taskId := taskId, started := started,
        stopped := some stopped, timeSpent := some timeSpent }
    match addLog db.logs log with
    | none => c
    | some logs2 => ({ db with logs := logs2 }, mUpdateLog s taskId log)

/-- Action `updateInterval`: when the log exists, overwrite its `started`,
`stopped` and `timeSpent`, put it back, commit `updateLog`. -/
def updateIntervalA (se : Bool) (c : Config)
    (logId : String) (started timeSpent stopped : Nat) : Config :=
  let (db, s) := c
  match db.logs.find? (fun l => l.id = logId) with
  | none => c
  | some log =>
    let log2 := { log with started := started, stopped := some stopped, timeSpent := some timeSpent }
    let db1 := { db with logs := putLog db.logs log2 }
    if se then (db1, mUpdateLog s log.taskId log2) else (db1, s)

/-- Action `deleteInterval`: when the log exists, delete it and commit. -/
def deleteIntervalA (se : Bool) (c : Config) (logId : String) : Config :=
  let (db, s) := c
  match db.logs.find? (fun l => l.id = logId) with
  | none => c
  | some log =>
    let db1 := { db with logs := db.logs.filter (fun l => l.id != logId) }
    if se then (db1, mDeleteInterval s log.taskId logId) else (db1, s)

/-- Action `addTaskTagByName`: trim the name; when the task exists, find the
tag by name or create it (order one past the current maximum, a generated
color), add an association row, and commit `addTaskTag`.  None of these
writes is routed through `handleDexieError`. -/
def addTaskTagByNameA (newTagId newMapId color : String) (c : Config)
    (taskId : String) (tagName : String) : Config :=
  let (db, s) := c
  let trimmedTagName := tagName.trim
  if trimmedTagName = "" then c
  else
    match findTask s.tasks taskId with
    | none => c
    | some _ =>
      match db.tags.find? (fun t => t.tagName = trimmedTagName) with
      | some tag =>
        let db1 := { db with taskTagMap := db.taskTagMap ++ [⟨newMapId, taskId, tag.id⟩] }
        (db1, mAddTaskTag s taskId tag false)
      | none =>
        let maxOrder := (sortTagsByOrder db.tags).getLast?
        let order := match maxOrder with | some t => t.order + 1 | none => 0
        let tag : Tag := { id := newTagId, tagName := trimmedTagName, color := color, order := order }
        let db1 := { db with tags := db.tags ++ [tag] }
        let db2 := { db1 with taskTagMap := db1.taskTagMap ++ [⟨newMapId, taskId, tag.id⟩] }
        (db2, mAddTaskTag s taskId tag true)

/-- Action `addTaskTagById`: when both the task and the tag exist in the
store, add an association row (through `handleDexieError`) and commit. -/
def addTaskTagByIdA (se : Bool) (newMapId : String) (c : Config)
    (taskId : String) (tagId : String) : Config :=
  let (db, s) := c
  match findTask s.tasks taskId, s.tags.find? (fun t => t.id = tagId) with
  | some _, some tag =>
    let db1 := { db with taskTagMap := db.taskTagMap ++ [⟨newMapId, taskId, tagId⟩] }
    if se then (db1, mAddTaskTag s taskId tag false) else (db1, s)
  | _, _ => c

/-- Action `removeTaskTag`: delete the matching association rows (a direct,
unwrapped `delete`), re-read the task's rows, and commit `deleteTaskTag`. -/
def removeTaskTagA (c : Config) (taskId : String) (tagId : String) : Config :=
  let (db, s) := c
  let db1 :=
    { db with taskTagMap := db.taskTagMap.filter (fun m => !(m.taskId = taskId && m.tagId = tagId)) }
  let newTagIds := (db1.taskTagMap.filter (fun m => m.taskId = taskId)).map (fun m => m.tagId)
  (db1, mDeleteTaskTag s taskId newTagIds)

/-- Action `deleteTag`: when the tag exists and the user confirms, delete
its association rows, delete the tag, and commit `deleteTag` (both deletes
through `handleDexieError`). -/
def deleteTagA (se : Bool) (confirmed : Bool) (c : Config) (tagId : String) : Config :=
  let (db, s) := c
  match db.tags.find? (fun t => t.id = tagId) with
  | none => c
  | some _ =>
    if !confirmed then c
    else
      let db1 := { db with taskTagMap := db.taskTagMap.filter (fun m => m.tagId != tagId) }
      if !se then (db1, s)
      else
        let db2 := { db1 with tags := db1.tags.filter (fun t => t.id != tagId) }
        (db2, mDeleteTag s tagId)

/-- Action `addTagFilter`: push onto the store's `selectedTagIds` (an
in-place mutation of the state array) and persist via `updateSetting`. -/
def addTagFilterA (se : Bool) (c : Config) (tagId : String) : Config :=
  let (db, s) := c
  let selectedTagIds := s.settings.selectedTagIds ++ [tagId]
  let s1 := { s with settings := { s.settings with selectedTagIds := selectedTagIds } }
  updateSettingA se (db, s1) "selectedTagIds" (SettingValue.vIds selectedTagIds)

/-- Action `removeTagFilter`: filter the tag id out (a fresh array) and
persist via `updateSetting`. -/
def removeTagFilterA (se : Bool) (c : Config) (tagId : String) : Config :=
  let (db, s) := c
  let selectedTagIds := s.settings.selectedTagIds.filter (fun x => x != tagId)
  updateSettingA se (db, s) "selectedTagIds" (SettingValue.vIds selectedTagIds)

/-- Modelled from the spec: the `archivedTasks` getter (the getters module
is not among the sources; `actions.ts` and `NavbarArchiveDropdown.vue` only
call it).  Per the glossary a task carries an optional archival mark, so the
getter returns the tasks whose `archived` field is set (truthy). -/
def archivedTasksGetter (s : StoreState) : List Task :=
  s.tasks.filter (fun t => truthyB t.archived)

/-- Action `deleteAllArchivedTasks`: no-op when there is no archived task;
otherwise delete the archived tasks' logs, association rows and the tasks
themselves (all through `handleDexieError`) and commit `deleteTasks`. -/
def deleteAllArchivedTasksA (se : Bool) (c : Config) : Config :=
  let (db, s) := c
  let archivedTasks := archivedTasksGetter s
  if archivedTasks.isEmpty then c
  else
    let taskIds := archivedTasks.map (fun t => t.id)
    let db1 := { db with logs := db.logs.filter (fun l => !taskIds.contains l.taskId) }
    if !se then (db1, s)
    else
      let db2 := { db1 with taskTagMap := db1.taskTagMap.filter (fun m => !taskIds.contains m.taskId) }
      let db3 := { db2 with tasks := db2.tasks.filter (fun t => !taskIds.contains t.id) }
      (db3, mDeleteTasks s taskIds)

/-! ## Concrete fixtures, invariants, and the step relation -/

/-- An ordinary incomplete, unarchived task. -/
def fixTask1 : Task :=
  { id := "task-1", name := "Alpha", notes := "", order := 1, created_at := 0,
    completed := none, archived := none }

/-- An archived task. -/
def fixTaskArch : Task :=
  { id := "task-2", name := "Beta", notes := "", order := 2, created_at := 0,
    completed := none, archived := some true }

/-- A completed task. -/
def fixTaskDone : Task :=
  { id := "task-3", name := "Gamma", notes := "", order := 3, created_at := 0,
    completed := some 50, archived := none }

/-- A log with `stopped` unset and `timeSpent` set to `0`. -/
def fixLogZero : TaskLog :=
  { id := "log-1", taskId := "task-1", started := 100, stopped := none, timeSpent := some 0 }

/-- An orphaned running log: `stopped` unset, `timeSpent` set and nonzero. -/
def fixLogOrphan : TaskLog :=
  { id := "log-2", taskId := "task-1", started := 100, stopped := none, timeSpent := some 7 }

/-- A genuinely running log: `stopped` and `timeSpent` both unset. -/
def fixLogBlank : TaskLog :=
  { id := "log-3", taskId := "task-1", started := 100, stopped := none, timeSpent := none }

/-- A finished log of the archived task `fixTaskArch`. -/
def fixLogDone : TaskLog :=
  { id := "log-4", taskId := "task-2", started := 10, stopped := some 20, timeSpent := some 10 }

/-- An empty database. -/
def fixDb0 : Db := { tasks := [], tags := [], taskTagMap := [], settings := [], logs := [] }

/-- An empty store state with default settings. -/
def fixState0 : StoreState :=
  { tasks := [], tags := [], tagOrder := [], taskTagsMap := [], settings := initialSettings,
    selectedTaskLogs := [], tempState := { activeTaskID := none, running := false } }

/-- A store holding only `fixTask1`. -/
def fixState1 : StoreState :=
  { fixState0 with tasks := [fixTask1], taskTagsMap := [("task-1", [])] }

/-- A database holding only `fixTask1`. -/
def fixDb1 : Db := { fixDb0 with tasks := [fixTask1] }

/-- A store holding only the archived task. -/
def fixStateArch : StoreState :=
  { fixState0 with tasks := [fixTaskArch], taskTagsMap := [("task-2", [])] }

/-- A database holding only the archived task. -/
def fixDbArch : Db := { fixDb0 with tasks := [fixTaskArch] }

/-- A database holding `fixTask1` and one genuinely running log. -/
def fixDbRun : Db := { fixDb1 with logs := [fixLogBlank] }

/-- A second incomplete task, for the reorder witness. -/
def fixTaskB : Task :=
  { id := "task-4", name := "Delta", notes := "", order := 2, created_at := 0,
    completed := none, archived := none }

/-- A store with two incomplete tasks and one completed task. -/
def fixStateReorder : StoreState :=
  { fixState0 with
    tasks := [fixTask1, fixTaskB, fixTaskDone]
    taskTagsMap := [("task-1", []), ("task-4", []), ("task-3", [])] }

/-- Consistency of the derived map: for every task in the store, its
`state.taskTagsMap` entry equals the list of tagIds of the association
rows whose taskId is the task's id, in table order. -/
def TagMapConsistent (c : Config) : Prop :=
  ∀ task ∈ c.2.tasks,
    mapLookup c.2.taskTagsMap task.id
      = some ((c.1.taskTagMap.filter (fun m => m.taskId = task.id)).map (fun m => m.tagId))

instance tagMapConsistentDecidable (c : Config) : Decidable (TagMapConsistent c) :=
  List.decidableBAll _ _

/-- A tag fixture. -/
def fixTag1 : Tag := { id := "tag-1", tagName := "urgent", color := "#fff", order := 0 }

/-- A database with one task and one tag. -/
def fixDbTags : Db := { fixDb1 with tags := [fixTag1] }

/-- A store with one task, one tag and a consistent empty tag map. -/
def fixStateTags : StoreState :=
  { fixState1 with tags := [fixTag1], tagOrder := ["tag-1"] }

/-- A store where the archived task is selected and its log is loaded. -/
def fixStateSel : StoreState :=
  { fixStateArch with
    selectedTaskLogs := [fixLogDone]
    settings := { initialSettings with selectedTaskID := some "task-2" } }

/-- A database holding the archived task and its finished log. -/
def fixDbSel : Db := { fixDbArch with logs := [fixLogDone] }

/-- The number of running logs (`stopped === null`) in the table. -/
def runningCount (ls : List TaskLog) : Nat :=
  (ls.filter (fun l => l.stopped = none)).length

/-- Well-formedness of the logs table: at most one running log, and the
primary keys are pairwise distinct (Dexie enforces key uniqueness). -/
def LogsWF (ls : List TaskLog) : Prop :=
  runningCount ls ≤ 1 ∧ (ls.map (fun l => l.id)).Nodup

instance logsWFDecidable (ls : List TaskLog) : Decidable (LogsWF ls) :=
  inferInstanceAs
    (Decidable (runningCount ls ≤ 1 ∧ (ls.map (fun l : TaskLog => l.id)).Nodup))

/-- One dispatch of a modelled store action, with arbitrary parameters.
(`archiveTasks`, `updateTag`, `reorderTags` and the modal actions are not
modelled; none of them writes to the `logs` table.) -/
inductive StoreStep : Config → Config → Prop where
  | loadInitialData (se : Bool) (c : Config) : StoreStep c (loadInitialDataA se c)
  | addTask (se : Bool) (now : Nat) (newTaskId : String) (mapIdGen : Nat → String)
      (c : Config) (name : String) : StoreStep c (addTaskA se now newTaskId mapIdGen c name)
  | updateTaskName (se : Bool) (c : Config) (taskId name : String) :
      StoreStep c (updateTaskNameA se c taskId name)
  | updateTaskNotes (se : Bool) (c : Config) (taskId notes : String) :
      StoreStep c (updateTaskNotesA se c taskId notes)
  | reorderIncompleteTasks (se : Bool) (c : Config) (newOrder : List Task) :
      StoreStep c (reorderIncompleteTasksA se c newOrder)
  | startTask (se : Bool) (now : Nat) (logId : String) (c : Config) (taskId : String) :
      StoreStep c (startTaskA se now logId c taskId)
  | updateTaskTimer (se : Bool) (now : Nat) (c : Config) (taskId : String) :
      StoreStep c (updateTaskTimerA se now c taskId)
  | stopTask (se : Bool) (now : Nat) (c : Config) : StoreStep c (stopTaskA se now c)
  | completeTask (se : Bool) (now : Nat) (c : Config) (taskId : String) :
      StoreStep c (completeTaskA se now c taskId)
  | archiveTask (c : Config) (taskId : String) : StoreStep c (archiveTaskA c taskId)
  | addInterval (logId : String) (c : Config) (taskId : String)
      (started timeSpent stopped : Nat) :
      StoreStep c (addIntervalA logId c taskId started timeSpent stopped)
  | updateInterval (se : Bool) (c : Config) (logId : String)
      (started timeSpent stopped : Nat) :
      StoreStep c (updateIntervalA se c logId started timeSpent stopped)
  | deleteInterval (se : Bool) (c : Config) (logId : String) :
      StoreStep c (deleteIntervalA se c logId)
  | addTaskTagByName (newTagId newMapId color : String) (c : Config) (taskId tagName : String) :
      StoreStep c (addTaskTagByNameA newTagId newMapId color c taskId tagName)
  | addTaskTagById (se : Bool) (newMapId : String) (c : Config) (taskId tagId : String) :
      StoreStep c (addTaskTagByIdA se newMapId c taskId tagId)
  | removeTaskTag (c : Config) (taskId tagId : String) :
      StoreStep c (removeTaskTagA c taskId tagId)
  | deleteTag (se confirmed : Bool) (c : Config) (tagId : String) :
      StoreStep c (deleteTagA se confirmed c tagId)
  | selectTask (se : Bool) (c : Config) (taskId : Option String) :
      StoreStep c (selectTaskA se c taskId)
  | addTagFilter (se : Bool) (c : Config) (tagId : String) :
      StoreStep c (addTagFilterA se c tagId)
  | removeTagFilter (se : Bool) (c : Config) (tagId : String) :
      StoreStep c (removeTagFilterA se c tagId)
  | updateSetting (se : Bool) (c : Config) (key : String) (value : SettingValue) :
      StoreStep c (updateSettingA se c key value)
  | deleteAllArchivedTasks (se : Bool) (c : Config) :
      StoreStep c (deleteAllArchivedTasksA se c)

/-- Reachability by dispatching the modelled actions. -/
inductive ReachableFrom (c0 : Config) : Config → Prop where
  | refl : ReachableFrom c0 c0
  | step {c c' : Config} : ReachableFrom c0 c → StoreStep c c' → ReachableFrom c0 c'

/-! ## Theorems -/

/-- The `updateLog` mutation never changes `state.tasks`. -/
theorem mUpdateLog_tasks (s : StoreState) (tid : String) (log : TaskLog) :
    (mUpdateLog s tid log).tasks = s.tasks := by
  unfold mUpdateLog
  split
  · rfl
  · split <;> rfl

/-- Action `stopTask` never changes the task tables: it only touches logs,
`selectedTaskLogs` and `tempState`. -/
theorem stopTaskA_tasks_eq (se : Bool) (now : Nat) (c : Config) :
    (stopTaskA se now c).1.tasks = c.1.tasks ∧ (stopTaskA se now c).2.tasks = c.2.tasks := by
  obtain ⟨db, s⟩ := c
  simp only [stopTaskA]
  cases hf : db.logs.find? (fun l => l.stopped = none) with
  | none => exact ⟨rfl, rfl⟩
  | some rl =>
    by_cases hse : se <;> simp [hse, mUpdateLog_tasks]

/-! ## C1: reconciliation of orphaned running logs on load -/

/-- C1 (counterexample): a log whose `stopped` field is unset and whose
`timeSpent` field is set — to `0` — is *not* reconciled by
`loadInitialData`: the JS condition `!log.stopped && log.timeSpent` treats
`timeSpent = 0` as falsy, so the log is left unchanged instead of getting
`stopped := started + timeSpent`. -/
theorem c1_counterexample :
    fixLogZero.stopped = none ∧ fixLogZero.timeSpent = some 0 ∧
    (loadInitialDataA true ({ fixDb0 with logs := [fixLogZero] }, fixState0)).1.logs
      = [fixLogZero] := by decide

/-- C1 (amended): on `loadInitialData`, every log in the database whose
`stopped` field is unset and whose `timeSpent` field is set *to a nonzero
value* gets `stopped := started + timeSpent` written back, and every log
whose `stopped` and `timeSpent` are both unset is left unchanged (so a
genuinely in-progress timer resumes across a reload). -/
theorem loadInitialData_reconciles_orphans (db : Db) (s : StoreState) (l : TaskLog) (n : Nat)
    (hmem : l ∈ db.logs) :
    (l.stopped = none → l.timeSpent = some n → n ≠ 0 →
      { l with stopped := some (l.started + n) } ∈ (loadInitialDataA true (db, s)).1.logs) ∧
    (l.stopped = none → l.timeSpent = none →
      l ∈ (loadInitialDataA true (db, s)).1.logs) := by
  have hlogs : (loadInitialDataA true (db, s)).1.logs = db.logs.map reconcileLog := by
    simp [loadInitialDataA]
  constructor
  · intro h1 h2 h3
    rw [hlogs]
    have hrec : reconcileLog l = { l with stopped := some (l.started + n) } := by
      simp [reconcileLog, truthyN, h1, h2, h3]
    exact hrec ▸ List.mem_map_of_mem _ hmem
  · intro h1 h2
    rw [hlogs]
    have hrec : reconcileLog l = l := by
      simp [reconcileLog, truthyN, h1, h2]
    exact hrec ▸ List.mem_map_of_mem _ hmem

/-- Witness for C1 (amended): a concrete load reconciling the orphaned log
`fixLogOrphan` while leaving the running log `fixLogBlank` untouched. -/
theorem loadInitialData_reconciles_orphans_witness :
    ({ fixLogOrphan with stopped := some (fixLogOrphan.started + 7) }
        ∈ (loadInitialDataA true ({ fixDb0 with logs := [fixLogOrphan, fixLogBlank] },
            fixState0)).1.logs) ∧
    (fixLogBlank
        ∈ (loadInitialDataA true ({ fixDb0 with logs := [fixLogOrphan, fixLogBlank] },
            fixState0)).1.logs) :=
  ⟨(loadInitialData_reconciles_orphans _ fixState0 fixLogOrphan 7
      (by decide)).1 (by decide) (by decide) (by decide),
   (loadInitialData_reconciles_orphans _ fixState0 fixLogBlank 7
      (by decide)).2 (by decide) (by decide)⟩

/-! ## C9: archiveTask ignores the caller's archived value and toggles -/

/-- C9: `archiveTask` destructures only `taskId` from its payload, so any
`archived` value the caller supplies (the Restore button passes
`archived: false`) is ignored; for every existing task it sets the task's
`archived` field to the negation of its current truthy value, in both the
database and the store — restoring un-archives only because the task is
currently archived. -/
theorem archiveTask_ignores_payload_and_toggles (c : Config) (payload : ArchiveTaskPayload)
    (task : Task) (h : findTask c.2.tasks payload.taskId = some task) :
    dispatchArchiveTask c payload =
      ({ c.1 with tasks := updateTaskById c.1.tasks payload.taskId (fun t => { t with archived := some (!truthyB task.archived) }) },
       mUpdateTask c.2 payload.taskId
         (fun t => { t with archived := some (!truthyB task.archived) })) := by
  obtain ⟨db, s⟩ := c
  simp only [dispatchArchiveTask, archiveTaskA] at h ⊢
  rw [h]

/-- Witness for C9: restoring the archived task with an explicit
`archived: false` payload still just toggles the flag. -/
theorem archiveTask_ignores_payload_and_toggles_witness :
    dispatchArchiveTask (fixDbArch, fixStateArch) ⟨"task-2", some false⟩ =
      ({ fixDbArch with tasks := updateTaskById fixDbArch.tasks "task-2" (fun t => { t with archived := some (!truthyB fixTaskArch.archived) }) },
       mUpdateTask fixStateArch "task-2"
         (fun t => { t with archived := some (!truthyB fixTaskArch.archived) })) :=
  archiveTask_ignores_payload_and_toggles (fixDbArch, fixStateArch) ⟨"task-2", some false⟩
    fixTaskArch (by decide)

/-! ## C5: completion timestamps and the archived flag -/

/-- C5 (counterexample): `archiveTask` does not record an archival
timestamp.  The task's `archived` field is a boolean the action toggles:
on the existing archived task `fixTaskArch` it writes
`archived := some false`, clearing the archival mark rather than recording
any timestamp on the task. -/
theorem c5_counterexample :
    findTask fixStateArch.tasks "task-2" = some fixTaskArch ∧
    truthyB fixTaskArch.archived = true ∧
    (archiveTaskA (fixDbArch, fixStateArch) "task-2").2.tasks
      = [{ fixTaskArch with archived := some false }] ∧
    (archiveTaskA (fixDbArch, fixStateArch) "task-2").1.tasks
      = [{ fixTaskArch with archived := some false }] := by decide

/-- C5 (amended): a task carries an optional completion timestamp and a
boolean archived flag.  For every existing uncompleted task, `completeTask`
records the current time as its `completed` timestamp (and toggling back
clears it); for every existing task, `archiveTask` toggles the boolean
`archived` flag — it does not record an archival timestamp.  Both writes
reach the database and the store. -/
theorem completeTask_timestamps_archiveTask_toggles (se : Bool) (now : Nat) (c : Config)
    (taskId : String) (task : Task) (h : findTask c.2.tasks taskId = some task) :
    (truthyN task.completed = false →
      (completeTaskA se now c taskId).2.tasks
          = updateTaskById c.2.tasks taskId (fun t => { t with completed := some now }) ∧
      (completeTaskA se now c taskId).1.tasks
          = updateTaskById c.1.tasks taskId (fun t => { t with completed := some now })) ∧
    (truthyN task.completed = true →
      (completeTaskA se now c taskId).2.tasks
          = updateTaskById c.2.tasks taskId (fun t => { t with completed := none }) ∧
      (completeTaskA se now c taskId).1.tasks
          = updateTaskById c.1.tasks taskId (fun t => { t with completed := none })) ∧
    ((archiveTaskA c taskId).2.tasks
        = updateTaskById c.2.tasks taskId (fun t => { t with archived := some (!truthyB task.archived) }) ∧
     (archiveTaskA c taskId).1.tasks
        = updateTaskById c.1.tasks taskId (fun t => { t with archived := some (!truthyB task.archived) })) := by
  obtain ⟨db, s⟩ := c
  refine ⟨fun hc => ?_, fun hc => ?_, ?_⟩
  · simp only [completeTaskA, h, hc]
    by_cases hrun : s.tempState.activeTaskID = some task.id ∧ s.tempState.running
    · have h1 := stopTaskA_tasks_eq se now (db, s)
      simp [hrun.1, hrun.2, mUpdateTask, h1.1, h1.2]
    · rcases Decidable.not_and_iff_or_not.mp hrun with h1 | h1 <;>
        simp [h1, mUpdateTask]
  · simp [completeTaskA, h, hc, mUpdateTask]
  · simp [archiveTaskA, h, mUpdateTask]

/-- Witness for C5 (amended): completing and archiving `fixTask1`. -/
theorem completeTask_timestamps_archiveTask_toggles_witness :
    ((completeTaskA true 77 (fixDb1, fixState1) "task-1").2.tasks
        = updateTaskById fixState1.tasks "task-1" (fun t => { t with completed := some 77 }) ∧
     (completeTaskA true 77 (fixDb1, fixState1) "task-1").1.tasks
        = updateTaskById fixDb1.tasks "task-1" (fun t => { t with completed := some 77 })) ∧
    ((archiveTaskA (fixDb1, fixState1) "task-1").2.tasks
        = updateTaskById fixState1.tasks "task-1" (fun t => { t with archived := some (!truthyB fixTask1.archived) }) ∧
     (archiveTaskA (fixDb1, fixState1) "task-1").1.tasks
        = updateTaskById fixDb1.tasks "task-1" (fun t => { t with archived := some (!truthyB fixTask1.archived) })) :=
  ⟨(completeTask_timestamps_archiveTask_toggles true 77 (fixDb1, fixState1) "task-1" fixTask1
      (by decide)).1 (by decide),
   (completeTask_timestamps_archiveTask_toggles true 77 (fixDb1, fixState1) "task-1" fixTask1
      (by decide)).2.2⟩

/-! ## C3: behaviour of the task-directed actions on a missing taskId -/

/-- C3 (counterexample): `startTask` dispatches `stopTask` *before* its
existence check, so dispatching it with a taskId that has no task still
changes the database: the running log `fixLogBlank` gets stopped. -/
theorem c3_counterexample :
    findTask fixState1.tasks "missing" = none ∧
    (startTaskA true 500 "log-x" (fixDbRun, fixState1) "missing").1.logs
      = [{ fixLogBlank with stopped := some 500, timeSpent := some 400 }] ∧
    (startTaskA true 500 "log-x" (fixDbRun, fixState1) "missing").1.logs ≠ fixDbRun.logs := by
  decide

/-- C3 (amended): for every taskId that has no task in `state.tasks`, the
actions `updateTaskName`, `updateTaskNotes`, `completeTask`, `archiveTask`,
`addInterval` and `addTaskTagById` perform the existence check and change
neither the database nor the store; `startTask`, however, first dispatches
`stopTask` — stopping any running log — and only then checks existence, so
it behaves exactly like `stopTask` on a missing taskId. -/
theorem taskActions_missing_task_noop (se : Bool) (now started timeSpent stopped : Nat)
    (logId newMapId nm notes tagId : String) (c : Config) (taskId : String)
    (h : findTask c.2.tasks taskId = none) :
    updateTaskNameA se c taskId nm = c ∧
    updateTaskNotesA se c taskId notes = c ∧
    completeTaskA se now c taskId = c ∧
    archiveTaskA c taskId = c ∧
    addIntervalA logId c taskId started timeSpent stopped = c ∧
    addTaskTagByIdA se newMapId c taskId tagId = c ∧
    startTaskA se now logId c taskId = stopTaskA se now c := by
  obtain ⟨db, s⟩ := c
  refine ⟨?_, ?_, ?_, ?_, ?_, ?_, ?_⟩
  · simp [updateTaskNameA, h]
  · simp [updateTaskNotesA, h]
  · simp [completeTaskA, h]
  · simp [archiveTaskA, h]
  · simp [addIntervalA, h]
  · simp [addTaskTagByIdA, h]
  · have h2 := (stopTaskA_tasks_eq se now (db, s)).2
    simp only [startTaskA, h2, h]

/-- Witness for C3 (amended): concrete run on `fixState1`, which has no
task with id `"missing"`. -/
theorem taskActions_missing_task_noop_witness :
    updateTaskNameA true (fixDb1, fixState1) "missing" "x" = (fixDb1, fixState1) ∧
    updateTaskNotesA true (fixDb1, fixState1) "missing" "y" = (fixDb1, fixState1) ∧
    completeTaskA true 500 (fixDb1, fixState1) "missing" = (fixDb1, fixState1) ∧
    archiveTaskA (fixDb1, fixState1) "missing" = (fixDb1, fixState1) ∧
    addIntervalA "log-x" (fixDb1, fixState1) "missing" 1 2 3 = (fixDb1, fixState1) ∧
    addTaskTagByIdA true "map-1" (fixDb1, fixState1) "missing" "tag-1" = (fixDb1, fixState1) ∧
    startTaskA true 500 "log-x" (fixDb1, fixState1) "missing"
      = stopTaskA true 500 (fixDb1, fixState1) :=
  taskActions_missing_task_noop true 500 1 2 3 "log-x" "map-1" "x" "y" "tag-1"
    (fixDb1, fixState1) "missing" (by decide)

/-! ## C2: what the storageEnabled guard does and does not prevent -/

/-- C2 (counterexample): `completeTask` writes to the database and commits
to the store even when `storageEnabled` is false — its `tasks.update` and
its commit are not routed through `handleDexieError` — so not every
database write is prevented by the disk-space check. -/
theorem c2_counterexample :
    (completeTaskA false 999 (fixDb1, fixState1) "task-1").1.tasks
      = [{ fixTask1 with completed := some 999 }] ∧
    (completeTaskA false 999 (fixDb1, fixState1) "task-1").2.tasks
      = [{ fixTask1 with completed := some 999 }] ∧
    completeTaskA false 999 (fixDb1, fixState1) "task-1" ≠ (fixDb1, fixState1) := by
  decide

/-- C2 (amended): when `storageEnabled` is false, a write routed through
`handleDexieError` is rejected, so the store commit after it is skipped
(`updateTaskName` and `updateSetting` leave the store unchanged) — but the
database operation itself was started before the check and still takes
effect (`updateTaskName` still updates the task row, `updateSetting` still
puts the row); and the actions whose writes are not wrapped at all —
`completeTask` (likewise `archiveTask`, `addInterval`, `addTaskTagByName`,
`removeTaskTag`) — update both the database and the store. -/
theorem storage_guard_partial (now : Nat) (c : Config) (taskId nm key : String)
    (v : SettingValue) (task : Task) :
    ((updateTaskNameA false c taskId nm).2 = c.2) ∧
    ((updateSettingA false c key v).2 = c.2) ∧
    ((updateSettingA false c key v).1.settings = settingsPut c.1.settings ⟨key, v⟩) ∧
    (findTask c.2.tasks taskId = some task →
      (updateTaskNameA false c taskId nm).1.tasks
        = updateTaskById c.1.tasks taskId (fun t => { t with name := nm })) ∧
    (findTask c.2.tasks taskId = some task → truthyN task.completed = false →
      (completeTaskA false now c taskId).2.tasks
          = updateTaskById c.2.tasks taskId (fun t => { t with completed := some now }) ∧
      (completeTaskA false now c taskId).1.tasks
          = updateTaskById c.1.tasks taskId (fun t => { t with completed := some now })) := by
  obtain ⟨db, s⟩ := c
  refine ⟨?_, ?_, ?_, fun h => ?_, fun h hc => ?_⟩
  · cases hf : findTask s.tasks taskId <;> simp [updateTaskNameA, hf]
  · simp [updateSettingA]
  · simp [updateSettingA]
  · simp [updateTaskNameA, h]
  · simp only [completeTaskA, h, hc]
    by_cases hrun : s.tempState.activeTaskID = some task.id ∧ s.tempState.running
    · have h1 := stopTaskA_tasks_eq false now (db, s)
      simp [hrun.1, hrun.2, mUpdateTask, h1.1, h1.2]
    · rcases Decidable.not_and_iff_or_not.mp hrun with h1 | h1 <;>
        simp [h1, mUpdateTask]

/-- Witness for C2 (amended): concrete run on `fixTask1` with storage
disabled. -/
theorem storage_guard_partial_witness :
    ((updateTaskNameA false (fixDb1, fixState1) "task-1" "Z").2 = fixState1) ∧
    ((updateSettingA false (fixDb1, fixState1) "selectedTagIds" (SettingValue.vIds ["g1"])).2
        = fixState1) ∧
    ((updateSettingA false (fixDb1, fixState1) "selectedTagIds" (SettingValue.vIds ["g1"])).1.settings
        = settingsPut fixDb1.settings ⟨"selectedTagIds", SettingValue.vIds ["g1"]⟩) ∧
    ((updateTaskNameA false (fixDb1, fixState1) "task-1" "Z").1.tasks
        = updateTaskById fixDb1.tasks "task-1" (fun t => { t with name := "Z" })) ∧
    ((completeTaskA false 999 (fixDb1, fixState1) "task-1").2.tasks
        = updateTaskById fixState1.tasks "task-1" (fun t => { t with completed := some 999 }) ∧
     (completeTaskA false 999 (fixDb1, fixState1) "task-1").1.tasks
        = updateTaskById fixDb1.tasks "task-1" (fun t => { t with completed := some 999 })) := by
  have h := storage_guard_partial 999 (fixDb1, fixState1) "task-1" "Z" "selectedTagIds"
    (SettingValue.vIds ["g1"]) fixTask1
  exact ⟨h.1, h.2.1, h.2.2.1, h.2.2.2.1 (by decide), h.2.2.2.2 (by decide) (by decide)⟩

/-! ## C7: tag filters are persisted settings -/

/-- Writing the `selectedTagIds` key updates exactly that field. -/
theorem applySetting_selectedTagIds (st : Settings) (l : List String) :
    applySetting st "selectedTagIds" (SettingValue.vIds l) = { st with selectedTagIds := l } :=
  rfl

/-- A `settings` put is observable through a lookup of the same key. -/
theorem settingsLookup_put_self (rows : List SettingKv) (kv : SettingKv) :
    settingsLookup (settingsPut rows kv) kv.key = some kv.value := by
  induction rows with
  | nil => simp [settingsPut, settingsLookup]
  | cons r rs ih =>
    by_cases hk : r.key = kv.key
    · simp [settingsPut, settingsLookup, hk]
    · simp [settingsPut, settingsLookup, hk] at ih ⊢
      exact ih

/-- C7: `addTagFilter` appends the given tagId to
`settings.selectedTagIds` and persists the new list in the `settings`
table; `removeTagFilter` removes every occurrence of the tagId and
persists; hence for every tagId not already selected, running
`addTagFilter` and then `removeTagFilter` for it restores
`selectedTagIds` to its original value. -/
theorem tagFilter_persist_roundTrip (c : Config) (tagId : String) :
    ((addTagFilterA true c tagId).2.settings.selectedTagIds
        = c.2.settings.selectedTagIds ++ [tagId]) ∧
    (settingsLookup (addTagFilterA true c tagId).1.settings "selectedTagIds"
        = some (SettingValue.vIds (c.2.settings.selectedTagIds ++ [tagId]))) ∧
    ((removeTagFilterA true c tagId).2.settings.selectedTagIds
        = c.2.settings.selectedTagIds.filter (fun x => x != tagId)) ∧
    (settingsLookup (removeTagFilterA true c tagId).1.settings "selectedTagIds"
        = some (SettingValue.vIds (c.2.settings.selectedTagIds.filter (fun x => x != tagId)))) ∧
    (tagId ∉ c.2.settings.selectedTagIds →
      (removeTagFilterA true (addTagFilterA true c tagId) tagId).2.settings.selectedTagIds
        = c.2.settings.selectedTagIds) := by
  have hadd : ∀ c' : Config, (addTagFilterA true c' tagId).2.settings.selectedTagIds
      = c'.2.settings.selectedTagIds ++ [tagId] := by
    intro ⟨db, s⟩
    simp [addTagFilterA, updateSettingA, mUpdateSetting, applySetting_selectedTagIds]
  have hrem : ∀ c' : Config, (removeTagFilterA true c' tagId).2.settings.selectedTagIds
      = c'.2.settings.selectedTagIds.filter (fun x => x != tagId) := by
    intro ⟨db, s⟩
    simp [removeTagFilterA, updateSettingA, mUpdateSetting, applySetting_selectedTagIds]
  obtain ⟨db, s⟩ := c
  refine ⟨hadd (db, s), ?_, hrem (db, s), ?_, fun hni => ?_⟩
  · have := settingsLookup_put_self db.settings
      ⟨"selectedTagIds", SettingValue.vIds (s.settings.selectedTagIds ++ [tagId])⟩
    simpa [addTagFilterA, updateSettingA] using this
  · have := settingsLookup_put_self db.settings
      ⟨"selectedTagIds", SettingValue.vIds (s.settings.selectedTagIds.filter (fun x => x != tagId))⟩
    simpa [removeTagFilterA, updateSettingA] using this
  · rw [hrem _, hadd (db, s)]
    have hall : ∀ x ∈ s.settings.selectedTagIds, (x != tagId) = true := by
      intro x hx
      simp only [bne_iff_ne, ne_eq]
      rintro rfl
      exact hni hx
    rw [List.filter_append, List.filter_eq_self.mpr hall]
    simp

/-- Witness for C7: a concrete round trip over the filters `["g1", "g2"]`. -/
theorem tagFilter_persist_roundTrip_witness :
    ((addTagFilterA true (fixDb1, { fixState1 with settings := { initialSettings with selectedTagIds := ["g1", "g2"] } }) "g3").2.settings.selectedTagIds
        = ["g1", "g2"] ++ ["g3"]) ∧
    ((removeTagFilterA true (addTagFilterA true (fixDb1, { fixState1 with settings := { initialSettings with selectedTagIds := ["g1", "g2"] } }) "g3") "g3").2.settings.selectedTagIds
        = ["g1", "g2"]) := by
  have h := tagFilter_persist_roundTrip
    (fixDb1, { fixState1 with settings := { initialSettings with selectedTagIds := ["g1", "g2"] } }) "g3"
  exact ⟨h.1, h.2.2.2.2 (by decide)⟩

/-! ## C6: reorderIncompleteTasks numbers tasks by position -/

/-- Length is preserved by the numbering pass. -/
theorem setOrdersFrom_length (ts : List Task) (i : Nat) :
    (setOrdersFrom i ts).length = ts.length := by
  induction ts generalizing i with
  | nil => rfl
  | cons t ts ih => simp [setOrdersFrom, ih]

/-- Element `j` of `setOrdersFrom i ts` carries `order = i + j`. -/
theorem setOrdersFrom_get (ts : List Task) (i j : Nat)
    (h : j < (setOrdersFrom i ts).length) :
    ((setOrdersFrom i ts)[j]).order = i + j := by
  induction ts generalizing i j with
  | nil => simp [setOrdersFrom] at h
  | cons t ts ih =>
    cases j with
    | zero => simp [setOrdersFrom]
    | succ jj =>
      have h' : jj < (setOrdersFrom (i + 1) ts).length := by
        simpa [setOrdersFrom] using h
      simp only [setOrdersFrom, List.getElem_cons_succ]
      rw [ih (i + 1) jj h']
      omega

/-- C6: when `newIncompleteTaskOrder` has exactly the length of the current
incomplete tasks, after `reorderIncompleteTasks` the store's task list is
`newIncompleteTaskOrder` followed by the completed tasks, renumbered so
that each task's `order` field equals its position — and hence every
completed task is numbered after every incomplete one. -/
theorem reorderIncompleteTasks_numbers (c : Config) (newOrder : List Task)
    (hlen : newOrder.length = (c.2.tasks.filter (fun t => !truthyN t.completed)).length) :
    ((reorderIncompleteTasksA true c newOrder).2.tasks
        = setOrders (newOrder ++ c.2.tasks.filter (fun t => truthyN t.completed))) ∧
    (∀ j (h : j < ((reorderIncompleteTasksA true c newOrder).2.tasks).length),
      (((reorderIncompleteTasksA true c newOrder).2.tasks)[j]).order = j) ∧
    (∀ j k (hj : j < ((reorderIncompleteTasksA true c newOrder).2.tasks).length)
        (hk : newOrder.length + k < ((reorderIncompleteTasksA true c newOrder).2.tasks).length),
      j < newOrder.length →
      (((reorderIncompleteTasksA true c newOrder).2.tasks)[j]).order
        < (((reorderIncompleteTasksA true c newOrder).2.tasks)[newOrder.length + k]).order) := by
  obtain ⟨db, s⟩ := c
  have hmain : (reorderIncompleteTasksA true (db, s) newOrder).2.tasks
      = setOrders (newOrder ++ s.tasks.filter (fun t => truthyN t.completed)) := by
    simp only [reorderIncompleteTasksA]
    rw [if_pos hlen]
    simp [mSetTasks]
  have hgen : ∀ (L : List Task),
      L = setOrders (newOrder ++ s.tasks.filter (fun t => truthyN t.completed)) →
      ∀ j (h : j < L.length), (L[j]).order = j := by
    rintro L rfl j h
    simpa using setOrdersFrom_get _ 0 j h
  have hget := hgen _ hmain
  refine ⟨hmain, hget, fun j k hj hk hjlt => ?_⟩
  rw [hget j hj, hget (newOrder.length + k) hk]
  omega

/-- Witness for C6: swapping the two incomplete tasks renumbers everything
by position. -/
theorem reorderIncompleteTasks_numbers_witness :
    ((reorderIncompleteTasksA true ({ fixDb0 with tasks := [fixTask1, fixTaskB, fixTaskDone] }, fixStateReorder) [fixTaskB, fixTask1]).2.tasks
        = setOrders ([fixTaskB, fixTask1] ++ fixStateReorder.tasks.filter (fun t => truthyN t.completed))) ∧
    (∀ j (h : j < ((reorderIncompleteTasksA true ({ fixDb0 with tasks := [fixTask1, fixTaskB, fixTaskDone] }, fixStateReorder) [fixTaskB, fixTask1]).2.tasks).length),
      (((reorderIncompleteTasksA true ({ fixDb0 with tasks := [fixTask1, fixTaskB, fixTaskDone] }, fixStateReorder) [fixTaskB, fixTask1]).2.tasks)[j]).order = j) :=
  ⟨(reorderIncompleteTasks_numbers _ [fixTaskB, fixTask1] (by decide)).1,
   (reorderIncompleteTasks_numbers
      ({ fixDb0 with tasks := [fixTask1, fixTaskB, fixTaskDone] }, fixStateReorder)
      [fixTaskB, fixTask1] (by decide)).2.1⟩

/-! ## C4: consistency of the derived tag-membership map -/

/-- Lookup after a push: only the pushed key's entry changes, by appending. -/
theorem mapLookup_mapPush (m : List (String × List String)) (k k' x : String) :
    mapLookup (mapPush m k x) k'
      = if k' = k then (mapLookup m k').map (fun v => v ++ [x]) else mapLookup m k' := by
  induction m with
  | nil => simp [mapPush, mapLookup]
  | cons p ps ih =>
    by_cases hpk : p.1 = k
    · by_cases hk : k' = k
      · simp [mapPush, mapLookup, hpk, hk]
      · have hkk' : ¬ k = k' := fun hc => hk hc.symm
        simpa [mapPush, mapLookup, hpk, hk, hkk'] using ih
    · by_cases hk : k' = k
      · have hp' : ¬ p.1 = k' := by rw [hk]; exact hpk
        simpa [mapPush, mapLookup, hpk, hk, hp'] using ih
      · by_cases hp' : p.1 = k'
        · simp [mapPush, mapLookup, hpk, hk, hp']
        · simpa [mapPush, mapLookup, hpk, hk, hp'] using ih

/-- Lookup after an assignment: the assigned key reads the new value. -/
theorem mapLookup_mapSet (m : List (String × List String)) (k k' : String) (v : List String) :
    mapLookup (mapSet m k v) k' = if k' = k then some v else mapLookup m k' := by
  induction m with
  | nil =>
    by_cases hk : k' = k
    · simp [mapSet, mapLookup, hk]
    · have : ¬ k = k' := fun hc => hk hc.symm
      simp [mapSet, mapLookup, hk, this]
  | cons p ps ih =>
    by_cases hpk : p.1 = k
    · by_cases hk : k' = k
      · simp [mapSet, mapLookup, hpk, hk]
      · have hp' : ¬ k = k' := fun hc => hk hc.symm
        simp [mapSet, mapLookup, hpk, hk, hp']
    · by_cases hk : k' = k
      · have hp' : ¬ p.1 = k' := by rw [hk]; exact hpk
        simpa [mapSet, mapLookup, hpk, hk, hp'] using ih
      · by_cases hp' : p.1 = k'
        · simp [mapSet, mapLookup, hpk, hk, hp']
        · simpa [mapSet, mapLookup, hpk, hk, hp'] using ih

/-- Lookup after filtering one entry's list. -/
theorem mapLookup_mapFilterEntry (m : List (String × List String)) (k k' tagId : String) :
    mapLookup (mapFilterEntry m k tagId) k'
      = if k' = k then (mapLookup m k').map (fun v => v.filter (fun x => x != tagId))
        else mapLookup m k' := by
  induction m with
  | nil => simp [mapFilterEntry, mapLookup]
  | cons p ps ih =>
    by_cases hpk : p.1 = k
    · by_cases hk : k' = k
      · simp [mapFilterEntry, mapLookup, hpk, hk]
      · have hkk' : ¬ k = k' := fun hc => hk hc.symm
        simpa [mapFilterEntry, mapLookup, hpk, hk, hkk'] using ih
    · by_cases hk : k' = k
      · have hp' : ¬ p.1 = k' := by rw [hk]; exact hpk
        simpa [mapFilterEntry, mapLookup, hpk, hk, hp'] using ih
      · by_cases hp' : p.1 = k'
        · simp [mapFilterEntry, mapLookup, hpk, hk, hp']
        · simpa [mapFilterEntry, mapLookup, hpk, hk, hp'] using ih

/-- Filtering a list twice by the same predicate is the same as once. -/
theorem filter_bne_idem (v : List String) (tagId : String) :
    (v.filter (fun x => x != tagId)).filter (fun x => x != tagId)
      = v.filter (fun x => x != tagId) := by
  induction v with
  | nil => rfl
  | cons a v ih =>
    by_cases h : (a != tagId) = true <;> simp [List.filter_cons, h, ih]

/-- Lookup after the `deleteTag` mutation's loop over all tasks. -/
theorem mapLookup_foldl_filterEntry (ts : List Task) (m : List (String × List String))
    (k tagId : String) :
    mapLookup (ts.foldl (fun acc t => mapFilterEntry acc t.id tagId) m) k
      = if ts.any (fun t => t.id = k)
        then (mapLookup m k).map (fun v => v.filter (fun x => x != tagId))
        else mapLookup m k := by
  induction ts generalizing m with
  | nil => simp
  | cons t ts ih =>
    simp only [List.foldl_cons, List.any_cons]
    rw [ih]
    by_cases ht : t.id = k
    · rw [mapLookup_mapFilterEntry]
      by_cases hts : ts.any (fun t => t.id = k) = true <;>
        cases hmk : mapLookup m k <;>
          simp [ht, hts, hmk, filter_bne_idem]
    · have hkt : ¬ k = t.id := fun hc => ht hc.symm
      rw [mapLookup_mapFilterEntry]
      by_cases hts : ts.any (fun t => t.id = k) = true <;> simp [ht, hkt, hts]

/-- Filtering out rows of a different task does not change a task's rows. -/
theorem filter_remove_other_rows (rows : List TaskTagMap) (tid tg k : String) (hne : tid ≠ k) :
    (rows.filter (fun m => !(m.taskId = tid && m.tagId = tg))).filter (fun m => m.taskId = k)
      = rows.filter (fun m => m.taskId = k) := by
  induction rows with
  | nil => rfl
  | cons r rs ih =>
    by_cases h1 : r.taskId = tid <;> by_cases h2 : r.tagId = tg <;>
      by_cases h3 : r.taskId = k <;>
        simp_all [List.filter_cons]

/-- Deleting all rows of one tag commutes with selecting a task's rows. -/
theorem taskTagMap_filter_comm (rows : List TaskTagMap) (tid tagId : String) :
    ((rows.filter (fun m => m.tagId != tagId)).filter (fun m => m.taskId = tid)).map
        (fun m => m.tagId)
      = ((rows.filter (fun m => m.taskId = tid)).map (fun m => m.tagId)).filter
          (fun x => x != tagId) := by
  induction rows with
  | nil => rfl
  | cons r rs ih =>
    by_cases h1 : (r.tagId != tagId) = true <;> by_cases h2 : r.taskId = tid <;>
      simp_all [List.filter_cons]

/-- Pushing a fresh association row's tagId onto the task's entry matches
appending the row to the table. -/
theorem consistent_push_row (db : Db) (s : StoreState) (hinv : TagMapConsistent (db, s))
    (tid tg mapId : String) :
    ∀ task ∈ s.tasks,
      mapLookup (mapPush s.taskTagsMap tid tg) task.id
        = some (((db.taskTagMap ++ [({ id := mapId, taskId := tid, tagId := tg } : TaskTagMap)]).filter
            (fun m => m.taskId = task.id)).map (fun m => m.tagId)) := by
  intro task htask
  have h0 := hinv task htask
  rw [mapLookup_mapPush]
  by_cases ht : task.id = tid
  · rw [if_pos ht, h0]
    have hrow : (({ id := mapId, taskId := tid, tagId := tg } : TaskTagMap).taskId = task.id)
        = True := by simp [ht.symm]
    simp [List.filter_append, List.filter_cons, hrow]
  · rw [if_neg ht, h0]
    have hrow : ¬(({ id := mapId, taskId := tid, tagId := tg } : TaskTagMap).taskId = task.id) :=
      fun hc => ht hc.symm
    simp [List.filter_append, List.filter_cons, hrow]

/-- Consistency is preserved by any step whose net effect is pushing one
association row: the store keeps its tasks, pushes the tagId onto the
task's entry, and the table gains the row at the end. -/
theorem consistent_of_push (db : Db) (s : StoreState) (c' : Config)
    (hinv : TagMapConsistent (db, s)) (tid tg mapId : String)
    (htasks : c'.2.tasks = s.tasks)
    (hmap : c'.2.taskTagsMap = mapPush s.taskTagsMap tid tg)
    (hrows : c'.1.taskTagMap
      = db.taskTagMap ++ [({ id := mapId, taskId := tid, tagId := tg } : TaskTagMap)]) :
    TagMapConsistent c' := by
  intro task htask
  rw [htasks] at htask
  rw [hmap, hrows]
  exact consistent_push_row db s hinv tid tg mapId task htask

/-- Consistency is preserved by the net effect of a confirmed `deleteTag`:
the store keeps its tasks, every task's entry is filtered, and the rows of
the deleted tag leave the table. -/
theorem consistent_of_deleteTag (db : Db) (s : StoreState) (c' : Config)
    (hinv : TagMapConsistent (db, s)) (tagId : String)
    (htasks : c'.2.tasks = s.tasks)
    (hmap : c'.2.taskTagsMap = s.tasks.foldl (fun m t => mapFilterEntry m t.id tagId) s.taskTagsMap)
    (hrows : c'.1.taskTagMap = db.taskTagMap.filter (fun m => m.tagId != tagId)) :
    TagMapConsistent c' := by
  intro task htask
  rw [htasks] at htask
  rw [hmap, hrows, mapLookup_foldl_filterEntry,
    if_pos (List.any_eq_true.mpr ⟨task, htask, by simp⟩), hinv task htask,
    taskTagMap_filter_comm]
  simp

/-- C4: each operation on task-tag associations - `addTaskTagByName`,
`addTaskTagById`, `removeTaskTag` and `deleteTag` - keeps the derived map
`state.taskTagsMap` consistent with the `taskTagMap` association table:
for every task, the task's entry equals the tagIds of the rows whose
taskId is the task's id.  (`addTaskTagById` and `deleteTag` route their
writes through `handleDexieError`, so storage must be enabled for the
commit to run.) -/
theorem taskTagsMap_stays_consistent (c : Config) (hinv : TagMapConsistent c)
    (newTagId newMapId color taskId tagName tagId : String) (confirmed : Bool) :
    TagMapConsistent (addTaskTagByNameA newTagId newMapId color c taskId tagName) ∧
    TagMapConsistent (addTaskTagByIdA true newMapId c taskId tagId) ∧
    TagMapConsistent (removeTaskTagA c taskId tagId) ∧
    TagMapConsistent (deleteTagA true confirmed c tagId) := by
  obtain ⟨db, s⟩ := c
  refine ⟨?_, ?_, ?_, ?_⟩
  · -- addTaskTagByName
    by_cases htrim : tagName.trim = ""
    · simpa [addTaskTagByNameA, htrim] using hinv
    · cases hft : findTask s.tasks taskId with
      | none =>
        have : addTaskTagByNameA newTagId newMapId color (db, s) taskId tagName = (db, s) := by
          simp only [addTaskTagByNameA.eq_def]; rw [if_neg htrim]; simp [hft]
        simpa [this] using hinv
      | some _ =>
        cases hftag : db.tags.find? (fun t => t.tagName = tagName.trim) with
        | some tag =>
          exact consistent_of_push db s
            (addTaskTagByNameA newTagId newMapId color (db, s) taskId tagName)
            hinv taskId tag.id newMapId
            (by simp only [addTaskTagByNameA.eq_def]; rw [if_neg htrim]
                simp [hft, hftag, mAddTaskTag])
            (by simp only [addTaskTagByNameA.eq_def]; rw [if_neg htrim]
                simp [hft, hftag, mAddTaskTag])
            (by simp only [addTaskTagByNameA.eq_def]; rw [if_neg htrim]
                simp [hft, hftag])
        | none =>
          exact consistent_of_push db s
            (addTaskTagByNameA newTagId newMapId color (db, s) taskId tagName)
            hinv taskId newTagId newMapId
            (by simp only [addTaskTagByNameA.eq_def]; rw [if_neg htrim]
                simp [hft, hftag, mAddTaskTag])
            (by simp only [addTaskTagByNameA.eq_def]; rw [if_neg htrim]
                simp [hft, hftag, mAddTaskTag])
            (by simp only [addTaskTagByNameA.eq_def]; rw [if_neg htrim]
                simp [hft, hftag])
  · -- addTaskTagById
    cases hft : findTask s.tasks taskId with
    | none => simpa [addTaskTagByIdA, hft] using hinv
    | some _ =>
      cases hftag : s.tags.find? (fun t => t.id = tagId) with
      | none => simpa [addTaskTagByIdA, hft, hftag] using hinv
      | some tag =>
        have htagid : tag.id = tagId := by
          have := List.find?_some hftag
          simpa using this
        exact consistent_of_push db s
            (addTaskTagByIdA true newMapId (db, s) taskId tagId)
            hinv taskId tagId newMapId
            (by simp [addTaskTagByIdA, hft, hftag, mAddTaskTag])
            (by simp [addTaskTagByIdA, hft, hftag, mAddTaskTag, htagid])
            (by simp [addTaskTagByIdA, hft, hftag, htagid])
  · -- removeTaskTag
    intro task htask
    have htask2 : task ∈ s.tasks := by
      simpa [removeTaskTagA, mDeleteTaskTag] using htask
    simp only [removeTaskTagA, mDeleteTaskTag]
    rw [mapLookup_mapSet]
    by_cases ht : task.id = taskId
    · rw [if_pos ht, ht]
    · rw [if_neg ht]
      rw [hinv task htask2, filter_remove_other_rows _ _ _ _ (fun hc => ht hc.symm)]
  · -- deleteTag
    cases hftag : db.tags.find? (fun t => t.id = tagId) with
    | none => simpa [deleteTagA, hftag] using hinv
    | some tag =>
      by_cases hcf : confirmed
      · exact consistent_of_deleteTag db s
            (deleteTagA true confirmed (db, s) tagId) hinv tagId
            (by simp [deleteTagA, hftag, hcf, mDeleteTag])
            (by simp [deleteTagA, hftag, hcf, mDeleteTag])
            (by simp [deleteTagA, hftag, hcf])
      · have hcf2 : confirmed = false := by simpa using hcf
        simpa [deleteTagA, hftag, hcf2] using hinv

/-- Witness for C4: the four operations keep the derived map consistent on
a concrete consistent configuration. -/
theorem taskTagsMap_stays_consistent_witness :
    TagMapConsistent (addTaskTagByNameA "tag-9" "map-9" "#abc" (fixDbTags, fixStateTags) "task-1" "deep work") ∧
    TagMapConsistent (addTaskTagByIdA true "map-9" (fixDbTags, fixStateTags) "task-1" "tag-1") ∧
    TagMapConsistent (removeTaskTagA (fixDbTags, fixStateTags) "task-1" "tag-1") ∧
    TagMapConsistent (deleteTagA true true (fixDbTags, fixStateTags) "tag-1") :=
  taskTagsMap_stays_consistent (fixDbTags, fixStateTags) (by decide)
    "tag-9" "map-9" "#abc" "task-1" "deep work" "tag-1" true

/-! ## C10: deleteAllArchivedTasks cascades (archivedTasks getter modelled
from the spec, see `archivedTasksGetter`) -/

/-- C10 (counterexample): after `deleteAllArchivedTasks`, the archived
task and its log are gone from the database, but the log remains in the
store's `selectedTaskLogs` — the `deleteTasks` mutation does not purge it —
so a log whose taskId belonged to an archived task does remain in the
store. -/
theorem c10_counterexample :
    truthyB fixTaskArch.archived = true ∧
    fixLogDone.taskId = fixTaskArch.id ∧
    (deleteAllArchivedTasksA true (fixDbSel, fixStateSel)).1.tasks = [] ∧
    (deleteAllArchivedTasksA true (fixDbSel, fixStateSel)).1.logs = [] ∧
    fixLogDone ∈ (deleteAllArchivedTasksA true (fixDbSel, fixStateSel)).2.selectedTaskLogs := by
  decide

/-- No lookup survives filtering its key out of an association object. -/
theorem mapLookup_filter_out (m : List (String × List String)) (pred : String → Bool)
    (k : String) (hk : pred k = false) :
    mapLookup (m.filter (fun p => pred p.1)) k = none := by
  induction m with
  | nil => simp [mapLookup]
  | cons p ps ih =>
    by_cases hp : pred p.1 = true
    · by_cases hpk : p.1 = k
      · rw [hpk] at hp
        rw [hp] at hk
        exact absurd hk (by simp)
      · simp [List.filter_cons, hp, mapLookup, hpk, ih]
    · simp only [Bool.not_eq_true] at hp
      simp [List.filter_cons, hp, ih]

/-- C10 (amended): `deleteAllArchivedTasks` purges the database: no
archived task remains (in database or store), and no log and no
association row of an archived task remains in the database; the store
drops the archived tasks and their `taskTagsMap` entries; but the store's
`selectedTaskLogs` is not purged, so a deleted task's logs can linger
there when it was the selected task.  When there is no archived task the
action changes nothing. -/
theorem deleteAllArchivedTasks_cascades (c : Config) (hsync : c.1.tasks = c.2.tasks) :
    (archivedTasksGetter c.2 = [] → deleteAllArchivedTasksA true c = c) ∧
    (∀ t ∈ (deleteAllArchivedTasksA true c).1.tasks, truthyB t.archived = false) ∧
    (∀ t ∈ (deleteAllArchivedTasksA true c).2.tasks, truthyB t.archived = false) ∧
    (∀ l ∈ (deleteAllArchivedTasksA true c).1.logs, ∀ t ∈ c.2.tasks,
      truthyB t.archived = true → l.taskId ≠ t.id) ∧
    (∀ m ∈ (deleteAllArchivedTasksA true c).1.taskTagMap, ∀ t ∈ c.2.tasks,
      truthyB t.archived = true → m.taskId ≠ t.id) ∧
    (∀ t ∈ c.2.tasks, truthyB t.archived = true →
      mapLookup (deleteAllArchivedTasksA true c).2.taskTagsMap t.id = none) := by
  obtain ⟨db, s⟩ := c
  have harchmem : ∀ t, t ∈ s.tasks → truthyB t.archived = true →
      ((archivedTasksGetter s).map (fun t => t.id)).contains t.id = true := by
    intro t ht harch
    have hmem : t ∈ archivedTasksGetter s := List.mem_filter.mpr ⟨ht, by simp [harch]⟩
    have : t.id ∈ (archivedTasksGetter s).map (fun t => t.id) :=
      List.mem_map_of_mem _ hmem
    exact List.elem_eq_true_of_mem this
  by_cases hemp : archivedTasksGetter s = []
  · have hres : deleteAllArchivedTasksA true (db, s) = (db, s) := by
      simp [deleteAllArchivedTasksA, hemp]
    have hnone : ∀ t ∈ s.tasks, truthyB t.archived = false := by
      intro t ht
      by_cases harch : truthyB t.archived = true
      · have : t ∈ archivedTasksGetter s := List.mem_filter.mpr ⟨ht, by simp [harch]⟩
        rw [hemp] at this
        exact absurd this (by simp)
      · simpa using harch
    refine ⟨fun _ => hres, ?_, ?_, ?_, ?_, ?_⟩
    · rw [hres]
      intro t ht
      exact hnone t (hsync ▸ ht)
    · rw [hres]
      exact hnone
    · rw [hres]
      intro l _ t ht harch
      exact absurd (hnone t ht) (by simp [harch])
    · rw [hres]
      intro m _ t ht harch
      exact absurd (hnone t ht) (by simp [harch])
    · intro t ht harch
      exact absurd (hnone t ht) (by simp [harch])
  · have hne : (archivedTasksGetter s).isEmpty = false := by
      cases h : archivedTasksGetter s with
      | nil => exact absurd h hemp
      | cons a l => rfl
    have hres : deleteAllArchivedTasksA true (db, s)
        = ({ db with
              logs := db.logs.filter
                (fun l => !((archivedTasksGetter s).map (fun t => t.id)).contains l.taskId)
              taskTagMap := db.taskTagMap.filter
                (fun m => !((archivedTasksGetter s).map (fun t => t.id)).contains m.taskId)
              tasks := db.tasks.filter
                (fun t => !((archivedTasksGetter s).map (fun t => t.id)).contains t.id) },
            mDeleteTasks s ((archivedTasksGetter s).map (fun t => t.id))) := by
      simp [deleteAllArchivedTasksA, hne]
    refine ⟨fun h => absurd h hemp, ?_, ?_, ?_, ?_, ?_⟩
    · rw [hres]
      intro t ht
      have := List.mem_filter.mp ht
      by_cases harch : truthyB t.archived = true
      · have hc := harchmem t (hsync ▸ this.1) harch
        rw [hc] at this
        exact absurd this.2 (by simp)
      · simpa using harch
    · rw [hres]
      intro t ht
      have hmem : t ∈ s.tasks.filter
          (fun t => !((archivedTasksGetter s).map (fun t => t.id)).contains t.id) := by
        simpa [mDeleteTasks] using ht
      have := List.mem_filter.mp hmem
      by_cases harch : truthyB t.archived = true
      · have hc := harchmem t this.1 harch
        rw [hc] at this
        exact absurd this.2 (by simp)
      · simpa using harch
    · rw [hres]
      intro l hl t ht harch heq
      have := List.mem_filter.mp hl
      have hc := harchmem t ht harch
      rw [heq, hc] at this
      exact absurd this.2 (by simp)
    · rw [hres]
      intro m hm t ht harch heq
      have := List.mem_filter.mp hm
      have hc := harchmem t ht harch
      rw [heq, hc] at this
      exact absurd this.2 (by simp)
    · intro t ht harch
      rw [hres]
      have hc := harchmem t ht harch
      simp only [mDeleteTasks]
      exact mapLookup_filter_out _
        (fun k => !((archivedTasksGetter s).map (fun t => t.id)).contains k) t.id
        (by simp
            exact ⟨t, List.mem_filter.mpr ⟨ht, by simp [harch]⟩, rfl⟩)

/-- Witness for C10 (amended): the concrete configuration with one
archived, selected task. -/
theorem deleteAllArchivedTasks_cascades_witness :
    (archivedTasksGetter fixStateSel = [] →
      deleteAllArchivedTasksA true (fixDbSel, fixStateSel) = (fixDbSel, fixStateSel)) ∧
    (∀ t ∈ (deleteAllArchivedTasksA true (fixDbSel, fixStateSel)).1.tasks,
      truthyB t.archived = false) ∧
    (∀ t ∈ (deleteAllArchivedTasksA true (fixDbSel, fixStateSel)).2.tasks,
      truthyB t.archived = false) ∧
    (∀ l ∈ (deleteAllArchivedTasksA true (fixDbSel, fixStateSel)).1.logs,
      ∀ t ∈ fixStateSel.tasks, truthyB t.archived = true → l.taskId ≠ t.id) ∧
    (∀ m ∈ (deleteAllArchivedTasksA true (fixDbSel, fixStateSel)).1.taskTagMap,
      ∀ t ∈ fixStateSel.tasks, truthyB t.archived = true → m.taskId ≠ t.id) ∧
    (∀ t ∈ fixStateSel.tasks, truthyB t.archived = true →
      mapLookup (deleteAllArchivedTasksA true (fixDbSel, fixStateSel)).2.taskTagsMap t.id
        = none) :=
  deleteAllArchivedTasks_cascades (fixDbSel, fixStateSel) (by decide)

/-! ## C8: at most one running log in every reachable configuration -/

/-- Cons unfolding of `runningCount`. -/
theorem runningCount_cons (x : TaskLog) (xs : List TaskLog) :
    runningCount (x :: xs) = (if x.stopped = none then 1 else 0) + runningCount xs := by
  by_cases hx : x.stopped = none
  · simp [runningCount, List.filter_cons, hx]
    omega
  · simp [runningCount, List.filter_cons, hx]

/-- Appending one log adds its running status to the count. -/
theorem runningCount_append_one (ls : List TaskLog) (l : TaskLog) :
    runningCount (ls ++ [l]) = runningCount ls + (if l.stopped = none then 1 else 0) := by
  by_cases hl : l.stopped = none
  · simp [runningCount, List.filter_append, List.filter_cons, hl]
  · simp [runningCount, List.filter_append, List.filter_cons, hl]

/-- A filtered table never has more running logs. -/
theorem runningCount_filter_le (ls : List TaskLog) (p : TaskLog → Bool) :
    runningCount (ls.filter p) ≤ runningCount ls := by
  induction ls with
  | nil => simp
  | cons x xs ih =>
    rw [runningCount_cons]
    by_cases hp : p x = true
    · rw [List.filter_cons_of_pos hp, runningCount_cons]
      omega
    · rw [List.filter_cons_of_neg (by simpa using hp)]
      omega

/-- When no log satisfies the running test, the count is zero. -/
theorem runningCount_eq_zero_of_find?_none (ls : List TaskLog)
    (h : ls.find? (fun l => l.stopped = none) = none) : runningCount ls = 0 := by
  rw [List.find?_eq_none] at h
  have hnil : ls.filter (fun l => l.stopped = none) = [] := by
    rw [List.filter_eq_nil_iff]
    intro a ha
    simpa using h a ha
  simp [runningCount, hnil]

/-- The ids after a `put`: unchanged when the key was present, appended
otherwise. -/
theorem putLog_map_id (ls : List TaskLog) (l : TaskLog) :
    (putLog ls l).map (fun x => x.id)
      = if ls.any (fun x => x.id = l.id) then ls.map (fun x => x.id)
        else ls.map (fun x => x.id) ++ [l.id] := by
  induction ls with
  | nil => simp [putLog]
  | cons x xs ih =>
    by_cases hx : x.id = l.id
    · simp [putLog, hx]
    · by_cases hxs : xs.any (fun x => x.id = l.id) = true <;>
        simp [putLog, hx, hxs, ih]

/-- Fresh append keeps the ids pairwise distinct. -/
theorem nodup_ids_append_fresh (ls : List TaskLog) (l : TaskLog)
    (h : (ls.map (fun x => x.id)).Nodup)
    (hf : ¬ ls.any (fun x => x.id = l.id) = true) :
    ((ls ++ [l]).map (fun x => x.id)).Nodup := by
  have hnotin : l.id ∉ ls.map (fun x => x.id) := by
    intro hmem
    obtain ⟨x, hx, hxe⟩ := List.mem_map.mp hmem
    exact hf (List.any_eq_true.mpr ⟨x, hx, by simp [hxe]⟩)
  simp [List.nodup_append, h, hnotin]

/-- A `put` keeps the ids pairwise distinct. -/
theorem putLog_nodup (ls : List TaskLog) (l : TaskLog)
    (h : (ls.map (fun x => x.id)).Nodup) :
    ((putLog ls l).map (fun x => x.id)).Nodup := by
  rw [putLog_map_id]
  by_cases hany : ls.any (fun x => x.id = l.id) = true
  · simpa [hany] using h
  · rw [if_neg hany]
    have := nodup_ids_append_fresh ls l h hany
    simpa using this

/-- Putting a non-running log never increases the running count. -/
theorem runningCount_putLog_stopped (ls : List TaskLog) (l : TaskLog)
    (h : ¬ l.stopped = none) : runningCount (putLog ls l) ≤ runningCount ls := by
  induction ls with
  | nil => simp [putLog, runningCount, List.filter_cons, h]
  | cons x xs ih =>
    by_cases hx : x.id = l.id
    · simp only [putLog, if_pos hx]
      rw [runningCount_cons, runningCount_cons, if_neg h]
      omega
    · simp only [putLog, if_neg hx]
      rw [runningCount_cons, runningCount_cons]
      omega

/-- Putting a log over the unique row with its id, when that row is
running, trades the row's running status for the new log's. -/
theorem runningCount_putLog_of_mem : ∀ (ls : List TaskLog) (l l' : TaskLog),
    (ls.map (fun x => x.id)).Nodup → l ∈ ls → l.stopped = none → l'.id = l.id →
    runningCount (putLog ls l') + 1
      = runningCount ls + (if l'.stopped = none then 1 else 0)
  | [], l, l', _, hmem, _, _ => absurd hmem (by simp)
  | x :: xs, l, l', hnd, hmem, hrun, hid => by
    by_cases hx : x.id = l'.id
    · have hxl : x = l := by
        rcases List.mem_cons.mp hmem with hh | hh
        · exact hh.symm
        · exfalso
          have hin : l.id ∈ xs.map (fun x => x.id) := List.mem_map_of_mem _ hh
          rw [← hid, ← hx] at hin
          exact (List.nodup_cons.mp (by simpa using hnd)).1 hin
      simp only [putLog, if_pos hx]
      rw [runningCount_cons, runningCount_cons, hxl, if_pos hrun]
      omega
    · have hlxs : l ∈ xs := by
        rcases List.mem_cons.mp hmem with hh | hh
        · exact absurd (by rw [hid, hh] : x.id = l'.id) hx
        · exact hh
      have hnd' : (xs.map (fun x => x.id)).Nodup :=
        (List.nodup_cons.mp (by simpa using hnd)).2
      have hrec := runningCount_putLog_of_mem xs l l' hnd' hlxs hrun hid
      simp only [putLog, if_neg hx]
      rw [runningCount_cons, runningCount_cons]
      omega

/-- Reconciliation keeps each log's id. -/
theorem reconcileLog_id (l : TaskLog) : (reconcileLog l).id = l.id := by
  unfold reconcileLog
  split <;> rfl

/-- Reconciliation never creates a running log. -/
theorem reconcile_status_le (l : TaskLog) :
    (if (reconcileLog l).stopped = none then 1 else 0)
      ≤ (if l.stopped = none then 1 else 0) := by
  by_cases hc : (!truthyN l.stopped && truthyN l.timeSpent) = true
  · simp [reconcileLog, hc]
  · simp [reconcileLog, hc]

/-- Mapping the reconciliation over the table never increases the count. -/
theorem runningCount_map_reconcile (ls : List TaskLog) :
    runningCount (ls.map reconcileLog) ≤ runningCount ls := by
  induction ls with
  | nil => simp
  | cons x xs ih =>
    rw [List.map_cons, runningCount_cons, runningCount_cons]
    have := reconcile_status_le x
    omega

/-- Mapping the reconciliation keeps the ids. -/
theorem map_reconcile_ids (ls : List TaskLog) :
    (ls.map reconcileLog).map (fun x => x.id) = ls.map (fun x => x.id) := by
  induction ls with
  | nil => rfl
  | cons x xs ih => simp [reconcileLog_id, ih]

/-- Reconciling only the first orphan never increases the count. -/
theorem runningCount_reconcileFirst (ls : List TaskLog) :
    runningCount (reconcileFirst ls) ≤ runningCount ls := by
  induction ls with
  | nil => simp [reconcileFirst]
  | cons x xs ih =>
    by_cases hx : needsReconcile x = true
    · simp only [reconcileFirst, if_pos hx]
      rw [runningCount_cons, runningCount_cons]
      have := reconcile_status_le x
      omega
    · simp only [reconcileFirst, if_neg hx]
      rw [runningCount_cons, runningCount_cons]
      omega

/-- Reconciling only the first orphan keeps the ids. -/
theorem reconcileFirst_ids (ls : List TaskLog) :
    (reconcileFirst ls).map (fun x => x.id) = ls.map (fun x => x.id) := by
  induction ls with
  | nil => rfl
  | cons x xs ih =>
    by_cases hx : needsReconcile x = true <;>
      simp [reconcileFirst, hx, reconcileLog_id, ih]

/-- A successful Dexie `add`: the table was free of the key and the row is
appended. -/
theorem addLog_eq_some (ls : List TaskLog) (l : TaskLog) (ls2 : List TaskLog)
    (h : addLog ls l = some ls2) :
    ls2 = ls ++ [l] ∧ ¬ ls.any (fun x => x.id = l.id) = true := by
  unfold addLog at h
  split at h
  next hcond => cases h
  next hcond => exact ⟨(Option.some.inj h).symm, hcond⟩

/-! ### What each action does to the `logs` table -/

/-- The `updateSetting` action never touches the logs. -/
theorem updateSettingA_logs (se : Bool) (c : Config) (k : String) (v : SettingValue) :
    (updateSettingA se c k v).1.logs = c.1.logs := by
  obtain ⟨db, s⟩ := c
  by_cases hse : se <;> simp [updateSettingA, hse]

/-- The `selectTask` action never touches the logs. -/
theorem selectTaskA_logs (se : Bool) (c : Config) (tid : Option String) :
    (selectTaskA se c tid).1.logs = c.1.logs := by
  by_cases hse : se
  · cases tid <;> simp [selectTaskA, hse, updateSettingA_logs]
  · simp [selectTaskA, hse, updateSettingA_logs]

/-- The `addTask` action never touches the logs. -/
theorem addTaskA_logs (se : Bool) (now : Nat) (newTaskId : String) (mapIdGen : Nat → String)
    (c : Config) (name : String) : (addTaskA se now newTaskId mapIdGen c name).1.logs = c.1.logs := by
  obtain ⟨db, s⟩ := c
  simp only [addTaskA.eq_def]
  split
  · rfl
  · split
    · rfl
    · by_cases hse : se
      · simp [hse, selectTaskA_logs]
      · simp [hse]

/-- The `updateTaskName` action never touches the logs. -/
theorem updateTaskNameA_logs (se : Bool) (c : Config) (taskId name : String) :
    (updateTaskNameA se c taskId name).1.logs = c.1.logs := by
  obtain ⟨db, s⟩ := c
  cases hft : findTask s.tasks taskId <;> by_cases hse : se <;>
    simp [updateTaskNameA, hft, hse]

/-- The `updateTaskNotes` action never touches the logs. -/
theorem updateTaskNotesA_logs (se : Bool) (c : Config) (taskId notes : String) :
    (updateTaskNotesA se c taskId notes).1.logs = c.1.logs := by
  obtain ⟨db, s⟩ := c
  cases hft : findTask s.tasks taskId <;> by_cases hse : se <;>
    simp [updateTaskNotesA, hft, hse]

/-- The `reorderIncompleteTasks` action never touches the logs. -/
theorem reorderIncompleteTasksA_logs (se : Bool) (c : Config) (newOrder : List Task) :
    (reorderIncompleteTasksA se c newOrder).1.logs = c.1.logs := by
  obtain ⟨db, s⟩ := c
  simp only [reorderIncompleteTasksA.eq_def]
  split
  · by_cases hse : se <;> simp [hse]
  · split
    · by_cases hse : se <;> simp [hse]
    · rfl

/-- The `archiveTask` action never touches the logs. -/
theorem archiveTaskA_logs (c : Config) (taskId : String) :
    (archiveTaskA c taskId).1.logs = c.1.logs := by
  obtain ⟨db, s⟩ := c
  cases hft : findTask s.tasks taskId <;> simp [archiveTaskA, hft]

/-- The `addTaskTagByName` action never touches the logs. -/
theorem addTaskTagByNameA_logs (newTagId newMapId color : String) (c : Config)
    (taskId tagName : String) :
    (addTaskTagByNameA newTagId newMapId color c taskId tagName).1.logs = c.1.logs := by
  obtain ⟨db, s⟩ := c
  simp only [addTaskTagByNameA.eq_def]
  split
  · rfl
  · cases hft : findTask s.tasks taskId with
    | none => rfl
    | some _ =>
      cases hftag : db.tags.find? (fun t => t.tagName = tagName.trim) with
      | some tag => rfl
      | none => rfl

/-- The `addTaskTagById` action never touches the logs. -/
theorem addTaskTagByIdA_logs (se : Bool) (newMapId : String) (c : Config)
    (taskId tagId : String) :
    (addTaskTagByIdA se newMapId c taskId tagId).1.logs = c.1.logs := by
  obtain ⟨db, s⟩ := c
  cases hft : findTask s.tasks taskId <;>
    cases hftag : s.tags.find? (fun t => t.id = tagId) <;>
      by_cases hse : se <;> simp [addTaskTagByIdA, hft, hftag, hse]

/-- The `removeTaskTag` action never touches the logs. -/
theorem removeTaskTagA_logs (c : Config) (taskId tagId : String) :
    (removeTaskTagA c taskId tagId).1.logs = c.1.logs := by
  obtain ⟨db, s⟩ := c
  rfl

/-- The `deleteTag` action never touches the logs. -/
theorem deleteTagA_logs (se confirmed : Bool) (c : Config) (tagId : String) :
    (deleteTagA se confirmed c tagId).1.logs = c.1.logs := by
  obtain ⟨db, s⟩ := c
  cases hftag : db.tags.find? (fun t => t.id = tagId) <;>
    by_cases hcf : confirmed <;> by_cases hse : se <;>
      simp [deleteTagA, hftag, hcf, hse]

/-- The `addTagFilter` action never touches the logs. -/
theorem addTagFilterA_logs (se : Bool) (c : Config) (tagId : String) :
    (addTagFilterA se c tagId).1.logs = c.1.logs := by
  obtain ⟨db, s⟩ := c
  simpa [addTagFilterA] using updateSettingA_logs se _ "selectedTagIds" _

/-- The `removeTagFilter` action never touches the logs. -/
theorem removeTagFilterA_logs (se : Bool) (c : Config) (tagId : String) :
    (removeTagFilterA se c tagId).1.logs = c.1.logs := by
  obtain ⟨db, s⟩ := c
  simpa [removeTagFilterA] using updateSettingA_logs se _ "selectedTagIds" _

/-- The `completeTask` action changes the logs only through its
`stopTask` dispatch. -/
theorem completeTaskA_logs (se : Bool) (now : Nat) (c : Config) (taskId : String) :
    (completeTaskA se now c taskId).1.logs = c.1.logs ∨
    (completeTaskA se now c taskId).1.logs = (stopTaskA se now c).1.logs := by
  cases hft : findTask c.2.tasks taskId with
  | none => left; simp [completeTaskA.eq_def, hft]
  | some task =>
    simp only [completeTaskA.eq_def, hft]
    split
    · right; rfl
    · left; rfl

/-- The logs after `stopTask` when no log is running. -/
theorem stopTaskA_logs_none (se : Bool) (now : Nat) (c : Config)
    (hf : c.1.logs.find? (fun l => l.stopped = none) = none) :
    (stopTaskA se now c).1.logs = c.1.logs := by
  obtain ⟨db, s⟩ := c
  simp [stopTaskA, hf]

/-- The logs after `stopTask` when a running log was found. -/
theorem stopTaskA_logs_some (se : Bool) (now : Nat) (c : Config) (rl : TaskLog)
    (hf : c.1.logs.find? (fun l => l.stopped = none) = some rl) :
    (stopTaskA se now c).1.logs
      = putLog c.1.logs { rl with stopped := some now, timeSpent := some (now - rl.started) } := by
  obtain ⟨db, s⟩ := c
  by_cases hse : se <;> simp [stopTaskA, hf, hse]

/-- The `updateTaskTimer` action leaves the logs alone or puts the found
running log back with a new `timeSpent`. -/
theorem updateTaskTimerA_logs (se : Bool) (now : Nat) (c : Config) (taskId : String) :
    (updateTaskTimerA se now c taskId).1.logs = c.1.logs ∨
    ∃ rl, c.1.logs.find? (fun l => l.taskId = taskId && l.stopped = none) = some rl ∧
      (updateTaskTimerA se now c taskId).1.logs
        = putLog c.1.logs { rl with timeSpent := some (now - rl.started) } := by
  obtain ⟨db, s⟩ := c
  simp only [updateTaskTimerA.eq_def]
  cases hft : findTask s.tasks taskId with
  | none => left; rfl
  | some _ =>
    cases hf : db.logs.find? (fun l => l.taskId = taskId && l.stopped = none) with
    | none => left; rfl
    | some rl =>
      right
      refine ⟨rl, rfl, ?_⟩
      by_cases hse : se <;> simp [hse]

/-- The `updateInterval` action leaves the logs alone or puts the edited
log back. -/
theorem updateIntervalA_logs (se : Bool) (c : Config) (logId : String)
    (started timeSpent stopped : Nat) :
    (updateIntervalA se c logId started timeSpent stopped).1.logs = c.1.logs ∨
    ∃ log, c.1.logs.find? (fun l => l.id = logId) = some log ∧
      (updateIntervalA se c logId started timeSpent stopped).1.logs
        = putLog c.1.logs
            { log with started := started, stopped := some stopped, timeSpent := some timeSpent } := by
  obtain ⟨db, s⟩ := c
  simp only [updateIntervalA.eq_def]
  cases hf : db.logs.find? (fun l => l.id = logId) with
  | none => left; rfl
  | some log =>
    right
    refine ⟨log, rfl, ?_⟩
    by_cases hse : se <;> simp [hse]

/-- The `deleteInterval` action leaves the logs alone or filters one out. -/
theorem deleteIntervalA_logs (se : Bool) (c : Config) (logId : String) :
    (deleteIntervalA se c logId).1.logs = c.1.logs ∨
    (deleteIntervalA se c logId).1.logs = c.1.logs.filter (fun l => l.id != logId) := by
  obtain ⟨db, s⟩ := c
  simp only [deleteIntervalA.eq_def]
  cases hf : db.logs.find? (fun l => l.id = logId) with
  | none => left; rfl
  | some log =>
    right
    by_cases hse : se <;> simp [hse]

/-- The `addInterval` action leaves the logs alone or appends a stopped
log with a fresh id. -/
theorem addIntervalA_logs (logId : String) (c : Config) (taskId : String)
    (started timeSpent stopped : Nat) :
    (addIntervalA logId c taskId started timeSpent stopped).1.logs = c.1.logs ∨
    ((addIntervalA logId c taskId started timeSpent stopped).1.logs
        = c.1.logs ++ [{ id := logId, taskId := taskId, started := started, stopped := some stopped, timeSpent := some timeSpent }] ∧
      ¬ c.1.logs.any (fun x => x.id = logId) = true) := by
  obtain ⟨db, s⟩ := c
  simp only [addIntervalA.eq_def]
  cases hft : findTask s.tasks taskId with
  | none => left; rfl
  | some _ =>
    cases hadd : addLog db.logs { id := logId, taskId := taskId, started := started, stopped := some stopped, timeSpent := some timeSpent } with
    | none => left; rfl
    | some logs2 =>
      obtain ⟨heq, hfresh⟩ := addLog_eq_some _ _ _ hadd
      right
      exact ⟨by simp [heq], by simpa using hfresh⟩

/-- The `loadInitialData` action reconciles either just the first orphan
(storage disabled) or every orphan. -/
theorem loadInitialDataA_logs (se : Bool) (c : Config) :
    (loadInitialDataA se c).1.logs = reconcileFirst c.1.logs ∨
    (loadInitialDataA se c).1.logs = c.1.logs.map reconcileLog := by
  obtain ⟨db, s⟩ := c
  simp only [loadInitialDataA.eq_def]
  split
  · left; rfl
  · right; rfl

/-- The `deleteAllArchivedTasks` action leaves the logs alone or filters
them. -/
theorem deleteAllArchivedTasksA_logs (se : Bool) (c : Config) :
    (deleteAllArchivedTasksA se c).1.logs = c.1.logs ∨
    ∃ p : TaskLog → Bool, (deleteAllArchivedTasksA se c).1.logs = c.1.logs.filter p := by
  obtain ⟨db, s⟩ := c
  simp only [deleteAllArchivedTasksA.eq_def]
  split
  · left; rfl
  · right
    refine ⟨fun l => !((archivedTasksGetter s).map (fun t => t.id)).contains l.taskId, ?_⟩
    by_cases hse : se <;> simp [hse]

/-- The `startTask` action: after the inner `stopTask`, either nothing
more happens to the logs or a fresh running log is appended. -/
theorem startTaskA_logs (se : Bool) (now : Nat) (logId : String) (c : Config) (taskId : String) :
    (startTaskA se now logId c taskId).1.logs = (stopTaskA se now c).1.logs ∨
    ((startTaskA se now logId c taskId).1.logs
        = (stopTaskA se now c).1.logs
            ++ [{ id := logId, taskId := taskId, started := now, stopped := none, timeSpent := none }] ∧
      ¬ (stopTaskA se now c).1.logs.any (fun x => x.id = logId) = true) := by
  simp only [startTaskA.eq_def]
  cases hft : findTask (stopTaskA se now c).2.tasks taskId with
  | none => left; rfl
  | some _ =>
    cases hadd : addLog (stopTaskA se now c).1.logs
        { id := logId, taskId := taskId, started := now, stopped := none, timeSpent := none } with
    | none => left; rfl
    | some logs2 =>
      obtain ⟨heq, hfresh⟩ := addLog_eq_some _ _ _ hadd
      right
      refine ⟨?_, by simpa using hfresh⟩
      by_cases hse : se <;> simp [hse, heq]

/-- After `stopTask` the table is still well-formed and no log is
running: the action closes the unique running log when one exists. -/
theorem stopTaskA_logsWF (se : Bool) (now : Nat) (c : Config) (h : LogsWF c.1.logs) :
    LogsWF (stopTaskA se now c).1.logs ∧ runningCount (stopTaskA se now c).1.logs = 0 := by
  cases hf : c.1.logs.find? (fun l => l.stopped = none) with
  | none =>
    rw [stopTaskA_logs_none se now c hf]
    exact ⟨h, runningCount_eq_zero_of_find?_none _ hf⟩
  | some rl =>
    rw [stopTaskA_logs_some se now c rl hf]
    have hmem := List.mem_of_find?_eq_some hf
    have hrun : rl.stopped = none := by simpa using List.find?_some hf
    have hcount := runningCount_putLog_of_mem c.1.logs rl
      { rl with stopped := some now, timeSpent := some (now - rl.started) } h.2 hmem hrun rfl
    have hstopped : ¬ ({ rl with stopped := some now, timeSpent := some (now - rl.started) } : TaskLog).stopped = none := by
      simp
    rw [if_neg hstopped] at hcount
    have hle := h.1
    have hnd := putLog_nodup c.1.logs
      { rl with stopped := some now, timeSpent := some (now - rl.started) } h.2
    exact ⟨⟨by omega, hnd⟩, by omega⟩

/-- Every action preserves well-formedness of the logs table. -/
theorem logsWF_step {c c' : Config} (h : LogsWF c.1.logs) (hs : StoreStep c c') :
    LogsWF c'.1.logs := by
  cases hs with
  | loadInitialData se _ =>
    rcases loadInitialDataA_logs se c with heq | heq
    · rw [heq]
      exact ⟨le_trans (runningCount_reconcileFirst _) h.1,
        by rw [reconcileFirst_ids]; exact h.2⟩
    · rw [heq]
      exact ⟨le_trans (runningCount_map_reconcile _) h.1,
        by rw [map_reconcile_ids]; exact h.2⟩
  | addTask se now newTaskId mapIdGen _ name =>
    rw [LogsWF, addTaskA_logs]
    exact h
  | updateTaskName se _ taskId name =>
    rw [LogsWF, updateTaskNameA_logs]
    exact h
  | updateTaskNotes se _ taskId notes =>
    rw [LogsWF, updateTaskNotesA_logs]
    exact h
  | reorderIncompleteTasks se _ newOrder =>
    rw [LogsWF, reorderIncompleteTasksA_logs]
    exact h
  | startTask se now logId _ taskId =>
    have hstop := stopTaskA_logsWF se now c h
    rcases startTaskA_logs se now logId c taskId with heq | ⟨heq, hfresh⟩
    · rw [heq]
      exact hstop.1
    · rw [heq]
      refine ⟨?_, nodup_ids_append_fresh _ _ hstop.1.2 hfresh⟩
      rw [runningCount_append_one, hstop.2]
      simp
  | updateTaskTimer se now _ taskId =>
    rcases updateTaskTimerA_logs se now c taskId with heq | ⟨rl, hf, heq⟩
    · rw [heq]
      exact h
    · rw [heq]
      have hmem := List.mem_of_find?_eq_some hf
      have hrun : rl.stopped = none := by
        have := List.find?_some hf
        simp at this
        exact this.2
      have hcount := runningCount_putLog_of_mem c.1.logs rl
        { rl with timeSpent := some (now - rl.started) } h.2 hmem hrun rfl
      have hrun2 : ({ rl with timeSpent := some (now - rl.started) } : TaskLog).stopped = none :=
        hrun
      rw [if_pos hrun2] at hcount
      have hle := h.1
      exact ⟨by omega, putLog_nodup _ _ h.2⟩
  | stopTask se now _ =>
    exact (stopTaskA_logsWF se now c h).1
  | completeTask se now _ taskId =>
    rcases completeTaskA_logs se now c taskId with heq | heq
    · rw [heq]
      exact h
    · rw [heq]
      exact (stopTaskA_logsWF se now c h).1
  | archiveTask _ taskId =>
    rw [LogsWF, archiveTaskA_logs]
    exact h
  | addInterval logId _ taskId started timeSpent stopped =>
    rcases addIntervalA_logs logId c taskId started timeSpent stopped with heq | ⟨heq, hfresh⟩
    · rw [heq]
      exact h
    · rw [heq]
      refine ⟨?_, nodup_ids_append_fresh _ _ h.2 hfresh⟩
      rw [runningCount_append_one]
      have hle := h.1
      simp
      omega
  | updateInterval se _ logId started timeSpent stopped =>
    rcases updateIntervalA_logs se c logId started timeSpent stopped with heq | ⟨log, hf, heq⟩
    · rw [heq]
      exact h
    · rw [heq]
      refine ⟨le_trans (runningCount_putLog_stopped _ _ (by simp)) h.1, putLog_nodup _ _ h.2⟩
  | deleteInterval se _ logId =>
    rcases deleteIntervalA_logs se c logId with heq | heq
    · rw [heq]
      exact h
    · rw [heq]
      refine ⟨le_trans (runningCount_filter_le _ _) h.1, ?_⟩
      exact List.Nodup.sublist (List.Sublist.map _ (List.filter_sublist _)) h.2
  | addTaskTagByName newTagId newMapId color _ taskId tagName =>
    rw [LogsWF, addTaskTagByNameA_logs]
    exact h
  | addTaskTagById se newMapId _ taskId tagId =>
    rw [LogsWF, addTaskTagByIdA_logs]
    exact h
  | removeTaskTag _ taskId tagId =>
    rw [LogsWF, removeTaskTagA_logs]
    exact h
  | deleteTag se confirmed _ tagId =>
    rw [LogsWF, deleteTagA_logs]
    exact h
  | selectTask se _ taskId =>
    rw [LogsWF, selectTaskA_logs]
    exact h
  | addTagFilter se _ tagId =>
    rw [LogsWF, addTagFilterA_logs]
    exact h
  | removeTagFilter se _ tagId =>
    rw [LogsWF, removeTagFilterA_logs]
    exact h
  | updateSetting se _ key value =>
    rw [LogsWF, updateSettingA_logs]
    exact h
  | deleteAllArchivedTasks se _ =>
    rcases deleteAllArchivedTasksA_logs se c with heq | ⟨p, heq⟩
    · rw [heq]
      exact h
    · rw [heq]
      refine ⟨le_trans (runningCount_filter_le _ _) h.1, ?_⟩
      exact List.Nodup.sublist (List.Sublist.map _ (List.filter_sublist _)) h.2

/-- C8: at most one running log exists at any time.  Starting from any
configuration whose logs table is well-formed (at most one running log,
distinct primary keys — e.g. a fresh database), every configuration
reachable by dispatching the modelled store actions has at most one log
with `stopped = null`: `startTask` dispatches `stopTask` first, `stopTask`
closes the running log, `addInterval` and `updateInterval` only write logs
with `stopped` set, and `loadInitialData`'s reconciliation only closes
logs. -/
theorem at_most_one_running_log (c0 c : Config) (h0 : LogsWF c0.1.logs)
    (hr : ReachableFrom c0 c) : runningCount c.1.logs ≤ 1 := by
  have hwf : LogsWF c.1.logs := by
    induction hr with
    | refl => exact h0
    | step _ hs ih => exact logsWF_step ih hs
  exact hwf.1

/-- Witness for C8: one `startTask` dispatch from a configuration with a
running log still leaves at most one running log. -/
theorem at_most_one_running_log_witness :
    runningCount (startTaskA true 500 "log-9" (fixDbRun, fixState1) "task-1").1.logs ≤ 1 :=
  at_most_one_running_log (fixDbRun, fixState1)
    (startTaskA true 500 "log-9" (fixDbRun, fixState1) "task-1") (by decide)
    (ReachableFrom.step ReachableFrom.refl
      (StoreStep.startTask true 500 "log-9" (fixDbRun, fixState1) "task-1"))

end Pomodash
